import Mathlib

/-!
Verification of the porcaro rhythmic quantization engine.

Shallow embedding of the grid-matching core of the porcaro drum-transcription
repository.  Python floats are modelled as rationals, pandas DataFrames of
onset rows as lists of records carrying their integer row-index label, and
fallible code (assertions, pandas KeyError on drop-by-label, integer division
by zero, out-of-range numpy indexing) as an Except monad.

The embedded code is taken from:
  - porcaro/utils/time_signature.py   (TimeSignature.eighth_note_beat)
  - porcaro/utils/bpm.py              (BPM note-duration properties)
  - porcaro/processing/grid.py        (get_eighth_note_time_grid,
                                       sync_eighth_note_grid_to_onsets)
  - porcaro/processing/subdivision.py (Match, Subdivision, Subdivisions,
                                       EighthNoteSubdivisions,
                                       EighthNoteTupletSubdivisions)
  - porcaro/processing/matching.py    (match_by_eighth_notes,
                                       get_notes_within_tolerance)
  - porcaro/models/annoteator/prediction.py (run_prediction postprocessing)

The matcher in matching.py is composed with the complete Subdivisions
implementations of subdivision.py, as the claims' source references indicate
(the near-duplicate stubs of grid.py are abandoned drafts).
-/

namespace Porcaro

/-- Kinds of fatal Python errors distinguished by the embedding. -/
inductive Err
  | assertionError
  | zeroDivisionError
  | indexError
  | keyError
deriving DecidableEq, Repr

/-- TimeSignature value object: (beats_in_measure, note_value). -/
structure TimeSignature where
  beats_in_measure : ℤ
  note_value : ℤ
deriving DecidableEq, Repr

/-- Embedding of TimeSignature.eighth_note_beat.  The source asserts pos at
least 1, asserts the power-of-two bit trick on note_value, then converts the
beat position to an eighth-note position and asserts it does not exceed the
measure length.  The Python expression 8 / self.note_value raises
ZeroDivisionError when note_value is zero, which the bit-trick assertion does
not rule out. -/
def TimeSignature.eighth_note_beat (ts : TimeSignature) (pos : ℚ) : Except Err ℚ :=
  if 1 ≤ pos then
    if Int.land ts.note_value (ts.note_value - 1) = 0 then
      if ts.note_value = 0 then .error .zeroDivisionError
      else
        let eighths_per_beat : ℚ := 8 / (ts.note_value : ℚ)
        let eighth_note_pos : ℚ := (pos - 1) * eighths_per_beat + 1
        let total_eighths : ℚ := (ts.beats_in_measure : ℚ) * eighths_per_beat
        if eighth_note_pos ≤ total_eighths then .ok eighth_note_pos
        else .error .assertionError
    else .error .assertionError
  else .error .assertionError

/-- Note-duration properties of the BPM class, as pure functions of the bpm
value (seconds). -/
def BPM.eighth_note (bpm : ℚ) : ℚ := 60 / bpm / 2

/-- Duration of an eighth-note triplet in seconds. -/
def BPM.eighth_note_triplet (bpm : ℚ) : ℚ := 60 / bpm / 3

/-- Duration of a sixteenth note in seconds. -/
def BPM.sixteenth_note (bpm : ℚ) : ℚ := 60 / bpm / 4

/-- Duration of a dotted sixteenth note in seconds. -/
def BPM.dotted_sixteenth_note (bpm : ℚ) : ℚ := BPM.sixteenth_note bpm * (3 / 2)

/-- Duration of a thirty-second note in seconds. -/
def BPM.thirty_second_note (bpm : ℚ) : ℚ := 60 / bpm / 8

/-- Embedding of BPM.from_eighth_note: derive a bpm value from an observed
eighth-note duration and a time signature. -/
def BPM.from_eighth_note (d : ℚ) (ts : TimeSignature) : ℚ :=
  (60 / d) * ((ts.note_value : ℚ) / 8)

/-- Quarter-length values of the music21 Duration factory (Duration in
porcaro/processing/duration.py). -/
def Duration.eighth_note : ℚ := 1 / 2

/-- Quarter length of an eighth-note triplet. -/
def Duration.eighth_note_triplet : ℚ := 1 / 3

/-- Quarter length of a sixteenth note. -/
def Duration.sixteenth_note : ℚ := 1 / 4

/-- Quarter length of a dotted sixteenth note. -/
def Duration.dotted_sixteenth_note : ℚ := 3 / 8

/-- Quarter length of a thirty-second note. -/
def Duration.thirty_second_note : ℚ := 1 / 8

/-- Entry of the notes column of a Match: either the rest marker or an
instrument-label list coming from the classifier. -/
inductive Hit
  | rest
  | hits (labels : List String)
deriving DecidableEq, Repr

/-- One row of the onset DataFrame: its pandas row-index label, its peak time
in seconds and its instrument-hit annotation. -/
structure NoteRow where
  label : ℕ
  peak_time : ℚ
  hits : Hit
deriving DecidableEq, Repr

/-- A candidate rhythmic subdivision: predicted absolute times and the note
durations (quarter lengths) of the written notes. -/
structure Subdivision where
  times : List ℚ
  durations : List ℚ
deriving DecidableEq, Repr

/-- Result of fitting onsets to a subdivision. -/
structure Match where
  distance : ℚ
  durations : List ℚ
  notes : List Hit
deriving DecidableEq, Repr

/-- Embedding of Match.__add__. -/
def Match.add (a b : Match) : Match :=
  ⟨a.distance + b.distance, a.durations ++ b.durations, a.notes ++ b.notes⟩

/-- Python min of two Match values: min(a, b) keeps a unless b.__lt__(a). -/
def minMatch (a b : Match) : Match :=
  if b.distance < a.distance then b else a

/-- Absolute successive differences np.abs(np.diff(...)). -/
def listAbsDiffs (l : List ℚ) : List ℚ :=
  (l.zip l.tail).map (fun p => |p.2 - p.1|)

/-- Stable insertion of an index into an index list sorted by key. -/
def insertIdx (key : ℕ → ℚ) : List ℕ → ℕ → List ℕ
  | [], i => [i]
  | j :: rest, i => if key i < key j then i :: j :: rest else j :: insertIdx key rest i

/-- Model of np.argsort: indices of the list sorted ascending by value,
ties kept in index order (stable). -/
def argsortList (l : List ℚ) : List ℕ :=
  (List.range l.length).foldl (insertIdx (fun i => l.getD i 0)) []

/-- Stable insertion of a natural number into a sorted list. -/
def insertNat : List ℕ → ℕ → List ℕ
  | [], i => [i]
  | j :: rest, i => if i < j then i :: j :: rest else j :: insertNat rest i

/-- Model of np.sort on an index array. -/
def sortNats (l : List ℕ) : List ℕ := l.foldl insertNat []

/-- Embedding of pandas DataFrame.drop with a list of row labels: raises
KeyError if any label is absent from the index, otherwise removes every row
carrying one of the labels. -/
def dropLabels (notes : List NoteRow) (labels : List ℕ) : Except Err (List NoteRow) :=
  if labels.all (fun l => notes.any (fun r => r.label == l)) then
    .ok (notes.filter (fun r => !(labels.contains r.label)))
  else .error .keyError

/-- Distance of an onset table to one subdivision candidate:
np.sum(np.abs(notes.peak_time - subdiv.times)), positionally aligned. -/
def subdiv_distance (notes : List NoteRow) (sub : Subdivision) : ℚ :=
  (List.zipWith (fun t p => |t - p|) (notes.map NoteRow.peak_time) sub.times).sum

/-- Minimum value of a rational list, if nonempty. -/
def minList : List ℚ → Option ℚ
  | [] => none
  | x :: xs =>
    some (match minList xs with
      | none => x
      | some m => min x m)

/-- Model of np.argmin: index of the first occurrence of the minimum. -/
def argminIdx : List ℚ → ℕ
  | [] => 0
  | x :: xs =>
    match minList xs with
    | none => 0
    | some m => if x ≤ m then 0 else argminIdx xs + 1

/-- Embedding of Subdivisions._get_closest_match. -/
def get_closest_match (notes : List NoteRow) (possible_subdivs : List Subdivision) : Match :=
  let dists := possible_subdivs.map (subdiv_distance notes)
  let closest_index := argminIdx dists
  let closest_subdiv := possible_subdivs.getD closest_index ⟨[], []⟩
  ⟨dists.getD closest_index 0, closest_subdiv.durations, notes.map NoteRow.hits⟩

/-- State of an EighthNoteSubdivisions instance: the interval start time and
the per-interval bpm derived from the interval length. -/
structure ENSubs where
  start_time : ℚ
  bpm : ℚ
deriving DecidableEq, Repr

/-- Embedding of EighthNoteSubdivisions.__init__. -/
def ENSubs.init (start_time end_time : ℚ) (time_sig : TimeSignature) : ENSubs :=
  ⟨start_time, BPM.from_eighth_note (end_time - start_time) time_sig⟩

/-- Candidate 0001: a single thirty-second note in the last slot. -/
def ENSubs.thirty_second_note (c : ENSubs) : Subdivision :=
  ⟨[c.start_time + BPM.dotted_sixteenth_note c.bpm], [Duration.thirty_second_note]⟩

/-- Candidate 0010: a single sixteenth note in the second half. -/
def ENSubs.sixteenth_note (c : ENSubs) : Subdivision :=
  ⟨[c.start_time + BPM.sixteenth_note c.bpm], [Duration.sixteenth_note]⟩

/-- Candidate 0011: two thirty-second notes in the second half. -/
def ENSubs.two_thirty_second_notes (c : ENSubs) : Subdivision :=
  ⟨[c.start_time + BPM.sixteenth_note c.bpm,
    c.start_time + BPM.dotted_sixteenth_note c.bpm],
   [Duration.thirty_second_note, Duration.thirty_second_note]⟩

/-- Candidate 0100: a single dotted sixteenth note after a thirty-second. -/
def ENSubs.dotted_sixteenth_note (c : ENSubs) : Subdivision :=
  ⟨[c.start_time + BPM.thirty_second_note c.bpm], [Duration.dotted_sixteenth_note]⟩

/-- Candidate 0101: sixteenth then thirty-second. -/
def ENSubs.sixteenth_and_thirty_second (c : ENSubs) : Subdivision :=
  ⟨[c.start_time + BPM.thirty_second_note c.bpm,
    c.start_time + BPM.dotted_sixteenth_note c.bpm],
   [Duration.sixteenth_note, Duration.thirty_second_note]⟩

/-- Candidate 0110: thirty-second then sixteenth. -/
def ENSubs.thirty_second_and_sixteenth (c : ENSubs) : Subdivision :=
  ⟨[c.start_time + BPM.thirty_second_note c.bpm,
    c.start_time + BPM.sixteenth_note c.bpm],
   [Duration.thirty_second_note, Duration.sixteenth_note]⟩

/-- Candidate 0111: three thirty-second notes. -/
def ENSubs.three_thirty_second_notes (c : ENSubs) : Subdivision :=
  ⟨[c.start_time + BPM.thirty_second_note c.bpm,
    c.start_time + BPM.sixteenth_note c.bpm,
    c.start_time + BPM.dotted_sixteenth_note c.bpm],
   [Duration.thirty_second_note, Duration.thirty_second_note,
    Duration.thirty_second_note]⟩

/-- Candidate 1000: a single eighth note on the beat. -/
def ENSubs.eighth_note (c : ENSubs) : Subdivision :=
  ⟨[c.start_time], [Duration.eighth_note]⟩

/-- Candidate 1001: dotted sixteenth then thirty-second. -/
def ENSubs.dotted_sixteenth_and_thirty_second (c : ENSubs) : Subdivision :=
  ⟨[c.start_time, c.start_time + BPM.dotted_sixteenth_note c.bpm],
   [Duration.dotted_sixteenth_note, Duration.thirty_second_note]⟩

/-- Candidate 1010: two sixteenth notes. -/
def ENSubs.two_sixteenth_notes (c : ENSubs) : Subdivision :=
  ⟨[c.start_time, c.start_time + BPM.sixteenth_note c.bpm],
   [Duration.sixteenth_note, Duration.sixteenth_note]⟩

/-- Candidate 1011: sixteenth then two thirty-seconds. -/
def ENSubs.sixteenth_and_two_thirty_seconds (c : ENSubs) : Subdivision :=
  ⟨[c.start_time, c.start_time + BPM.sixteenth_note c.bpm,
    c.start_time + BPM.dotted_sixteenth_note c.bpm],
   [Duration.sixteenth_note, Duration.thirty_second_note,
    Duration.thirty_second_note]⟩

/-- Candidate 1100: thirty-second then dotted sixteenth. -/
def ENSubs.thirty_second_and_dotted_sixteenth (c : ENSubs) : Subdivision :=
  ⟨[c.start_time, c.start_time + BPM.thirty_second_note c.bpm],
   [Duration.thirty_second_note, Duration.dotted_sixteenth_note]⟩

/-- Candidate 1101: thirty-second, sixteenth, thirty-second. -/
def ENSubs.thirty_second_and_sixteenth_and_thirty_second (c : ENSubs) : Subdivision :=
  ⟨[c.start_time, c.start_time + BPM.thirty_second_note c.bpm,
    c.start_time + BPM.dotted_sixteenth_note c.bpm],
   [Duration.thirty_second_note, Duration.sixteenth_note,
    Duration.thirty_second_note]⟩

/-- Candidate 1110: two thirty-seconds then sixteenth. -/
def ENSubs.two_thirty_second_notes_and_sixteenth (c : ENSubs) : Subdivision :=
  ⟨[c.start_time, c.start_time + BPM.thirty_second_note c.bpm,
    c.start_time + BPM.sixteenth_note c.bpm],
   [Duration.thirty_second_note, Duration.thirty_second_note,
    Duration.sixteenth_note]⟩

/-- Candidate 1111: four thirty-second notes. -/
def ENSubs.four_thirty_second_notes (c : ENSubs) : Subdivision :=
  ⟨[c.start_time, c.start_time + BPM.thirty_second_note c.bpm,
    c.start_time + BPM.sixteenth_note c.bpm,
    c.start_time + BPM.dotted_sixteenth_note c.bpm],
   [Duration.thirty_second_note, Duration.thirty_second_note,
    Duration.thirty_second_note, Duration.thirty_second_note]⟩

/-- Embedding of EighthNoteSubdivisions.get_possible_subdivisions, keyed by the
number of observed notes. -/
def ENSubs.get_possible_subdivisions (c : ENSubs) : ℕ → List Subdivision
  | 1 => [c.thirty_second_note, c.sixteenth_note, c.dotted_sixteenth_note,
          c.eighth_note]
  | 2 => [c.two_thirty_second_notes, c.sixteenth_and_thirty_second,
          c.thirty_second_and_sixteenth, c.dotted_sixteenth_and_thirty_second,
          c.two_sixteenth_notes, c.thirty_second_and_dotted_sixteenth]
  | 3 => [c.three_thirty_second_notes, c.sixteenth_and_two_thirty_seconds,
          c.thirty_second_and_sixteenth_and_thirty_second,
          c.two_thirty_second_notes_and_sixteenth]
  | 4 => [c.four_thirty_second_notes]
  | _ => []

/-- Embedding of EighthNoteSubdivisions.match_notes.  Zero onsets yield the
rest eighth note at distance 0.  More than four onsets are reduced by
dropping, for each of the smallest successive time gaps, the pandas row whose
LABEL equals the positional index of that gap; DataFrame.drop works by label,
so this raises KeyError whenever the slice labels are not low positional
indices. -/
def ENSubs.match_notes (c : ENSubs) (notes : List NoteRow) : Except Err Match :=
  let num_notes := notes.length
  if num_notes = 0 then
    .ok ⟨0, [Duration.eighth_note], [Hit.rest]⟩
  else if 4 < num_notes then
    let dists := listAbsDiffs (notes.map NoteRow.peak_time)
    let omit_indices := sortNats ((argsortList dists).take (num_notes - 4))
    match dropLabels notes omit_indices with
    | .error e => .error e
    | .ok notes' =>
      .ok (get_closest_match notes' (c.get_possible_subdivisions notes'.length))
  else
    .ok (get_closest_match notes (c.get_possible_subdivisions num_notes))

/-- Embedding of the Subdivisions.match classmethod for straight subdivisions. -/
def ENSubs.match (start_time end_time : ℚ) (time_sig : TimeSignature)
    (notes : List NoteRow) : Except Err Match :=
  (ENSubs.init start_time end_time time_sig).match_notes notes

/-- State of an EighthNoteTupletSubdivisions instance; the interval spans two
eighth notes, so the bpm is derived from half the interval length. -/
structure ENTupletSubs where
  start_time : ℚ
  bpm : ℚ
deriving DecidableEq, Repr

/-- Embedding of EighthNoteTupletSubdivisions.__init__. -/
def ENTupletSubs.init (start_time end_time : ℚ) (time_sig : TimeSignature) : ENTupletSubs :=
  ⟨start_time, BPM.from_eighth_note ((end_time - start_time) / 2) time_sig⟩

/-- Tuplet candidate with a rest on the first triplet slot. -/
def ENTupletSubs.rested_first (c : ENTupletSubs) : Subdivision :=
  ⟨[c.start_time + BPM.eighth_note_triplet c.bpm,
    c.start_time + BPM.eighth_note_triplet c.bpm * 2],
   [Duration.eighth_note_triplet, Duration.eighth_note_triplet]⟩

/-- Tuplet candidate with a rest on the second triplet slot. -/
def ENTupletSubs.rested_second (c : ENTupletSubs) : Subdivision :=
  ⟨[c.start_time, c.start_time + BPM.eighth_note_triplet c.bpm * 2],
   [Duration.eighth_note_triplet, Duration.eighth_note_triplet]⟩

/-- Tuplet candidate with a rest on the third triplet slot. -/
def ENTupletSubs.rested_third (c : ENTupletSubs) : Subdivision :=
  ⟨[c.start_time, c.start_time + BPM.eighth_note_triplet c.bpm],
   [Duration.eighth_note_triplet, Duration.eighth_note_triplet]⟩

/-- Tuplet candidate with three eighth-note triplets. -/
def ENTupletSubs.three_triplets (c : ENTupletSubs) : Subdivision :=
  ⟨[c.start_time, c.start_time + BPM.eighth_note_triplet c.bpm,
    c.start_time + BPM.eighth_note_triplet c.bpm * 2],
   [Duration.eighth_note_triplet, Duration.eighth_note_triplet,
    Duration.eighth_note_triplet]⟩

/-- Embedding of EighthNoteTupletSubdivisions.get_possible_subdivisions: the
1-note tuplet is omitted as better represented by a straight note. -/
def ENTupletSubs.get_possible_subdivisions (c : ENTupletSubs) : ℕ → List Subdivision
  | 2 => [c.rested_first, c.rested_second, c.rested_third]
  | 3 => [c.three_triplets]
  | _ => []

/-- Embedding of EighthNoteTupletSubdivisions.match_notes: only 2- and 3-note
tables exist; any other onset count yields no tuplet match. -/
def ENTupletSubs.match_notes (c : ENTupletSubs) (notes : List NoteRow) : Option Match :=
  match notes.length with
  | 2 => some (get_closest_match notes (c.get_possible_subdivisions 2))
  | 3 => some (get_closest_match notes (c.get_possible_subdivisions 3))
  | _ => none

/-- Embedding of the Subdivisions.match classmethod for tuplet subdivisions. -/
def ENTupletSubs.match (start_time end_time : ℚ) (time_sig : TimeSignature)
    (notes : List NoteRow) : Option Match :=
  (ENTupletSubs.init start_time end_time time_sig).match_notes notes

/-- Embedding of get_notes_within_tolerance: np.searchsorted with side left at
start - tolerance and side right at end + tolerance on the sorted peak_time
column, then the positional slice (which keeps the pandas row labels). -/
def get_notes_within_tolerance (note_predictions : List NoteRow)
    (start_time end_time tolerance : ℚ) : List NoteRow :=
  let start_idx := note_predictions.countP
    (fun r => decide (r.peak_time < start_time - tolerance))
  let end_idx := note_predictions.countP
    (fun r => decide (r.peak_time ≤ end_time + tolerance))
  (note_predictions.take end_idx).drop start_idx

/-- One iteration of the stride loop of match_by_eighth_notes: the straight
matches of both eighth-note intervals against the tuplet match of the
two-eighth-note span. -/
def matchStride (note_predictions : List NoteRow) (time_sig : TimeSignature)
    (tolerance : ℚ) (g0 g1 g2 : ℚ) : Except Err Match :=
  let first_matching_notes := get_notes_within_tolerance note_predictions g0 g1 tolerance
  let second_matching_notes := get_notes_within_tolerance note_predictions g1 g2 tolerance
  match ENSubs.match g0 g1 time_sig first_matching_notes with
  | .error e => .error e
  | .ok first_match =>
    match ENSubs.match g1 g2 time_sig second_matching_notes with
    | .error e => .error e
    | .ok second_match =>
      match ENTupletSubs.match g0 g2 time_sig
          (first_matching_notes ++ second_matching_notes) with
      | some tuplet_match =>
        .ok (minMatch (first_match.add second_match) tuplet_match)
      | none => .ok (first_match.add second_match)

/-- Recursion of the stride loop for i in range(0, len(grid) - 1, 2): with at
least three remaining grid points a full stride is processed; with exactly two
remaining points the loop body still runs and the access grid[i + 2] is out of
range. -/
def matchAux (note_predictions : List NoteRow) (time_sig : TimeSignature)
    (tolerance : ℚ) : List ℚ → Except Err (List ℚ × List Hit)
  | [] => .ok ([], [])
  | [_] => .ok ([], [])
  | [_, _] => .error .indexError
  | g0 :: g1 :: g2 :: rest =>
    match matchStride note_predictions time_sig tolerance g0 g1 g2 with
    | .error e => .error e
    | .ok best_match =>
      match matchAux note_predictions time_sig tolerance (g2 :: rest) with
      | .error e => .error e
      | .ok (ds, ns) => .ok (best_match.durations ++ ds, best_match.notes ++ ns)

/-- Embedding of match_by_eighth_notes; the required-columns assertion is
subsumed by the typed NoteRow records. -/
def match_by_eighth_notes (grid : List ℚ) (note_predictions : List NoteRow)
    (time_sig : TimeSignature) (tolerance : ℚ) : Except Err (List ℚ × List Hit) :=
  matchAux note_predictions time_sig tolerance grid

/-- Embedding of sync_eighth_note_grid_to_onsets.  The onset cursor persists
across grid points and only advances; it is modelled by passing the remaining
onset suffix along.  Every grid point, including the first, is snapped to the
cursor onset when that onset lies within tolerance of the raw point, and kept
at its raw value otherwise. -/
def syncAux (tolerance : ℚ) : List ℚ → List ℚ → List ℚ
  | _, [] => []
  | onsets, g :: rest =>
    let onsets' := onsets.dropWhile (fun o => decide (o < g - tolerance))
    let v := match onsets'.head? with
      | some o => if |o - g| ≤ tolerance then o else g
      | none => g
    v :: syncAux tolerance onsets' rest

/-- Embedding of sync_eighth_note_grid_to_onsets (entry point). -/
def sync_eighth_note_grid_to_onsets (grid : List ℚ) (onset_times : List ℚ)
    (tolerance : ℚ) : List ℚ :=
  syncAux tolerance onset_times grid

/-- Model of np.arange(start, stop, step): length is the ceiling of
(stop - start) / step clamped at zero (numpy raises on a zero step, which the
callers never produce; the embedding returns the empty grid there). -/
def arange (start stop step : ℚ) : List ℚ :=
  if step = 0 then []
  else (List.range (Int.toNat ⌈(stop - start) / step⌉)).map
    (fun k => start + (k : ℚ) * step)

/-- SongData aggregate (bpm, time signature, duration, sample rate,
start beat). -/
structure SongData where
  bpm : ℚ
  time_signature : TimeSignature
  duration : ℚ
  sample_rate : ℚ
  start_beat : ℚ
deriving DecidableEq, Repr

/-- Embedding of get_eighth_note_time_grid.  It converts the declared start
beat to an eighth-note position, subtracts the measure-start offset from the
first drum hit time, asserts the resulting measure start is not negative, and
returns np.arange(measure_start, duration, eighth_note).  The plain-float
division 60 / bpm raises ZeroDivisionError when bpm is zero. -/
def get_eighth_note_time_grid (song_data : SongData) (drum_start_time : ℚ) :
    Except Err (List ℚ) :=
  match song_data.time_signature.eighth_note_beat song_data.start_beat with
  | .error e => .error e
  | .ok eighth_note_start_beat =>
    if song_data.bpm = 0 then .error .zeroDivisionError
    else
      let measure_start_offset :=
        (eighth_note_start_beat - 1) * BPM.eighth_note song_data.bpm
      let measure_start := drum_start_time - measure_start_offset
      if measure_start < 0 then .error .assertionError
      else .ok (arange measure_start song_data.duration (BPM.eighth_note song_data.bpm))

/-- Fixed instrument vocabulary of the Annoteator prediction postprocessing. -/
def drum_hits : List String := ["SD", "HH", "KD", "RC", "TT", "CC"]

/-- Threshold step of run_prediction: probabilities above one half become 1.0,
the rest 0.0. -/
def binarize (probs : List ℚ) : List ℚ :=
  probs.map (fun p => if 1 / 2 < p then (1 : ℚ) else 0)

/-- Model of np.argmax: index of the first occurrence of the maximum. -/
def argmaxIdx : List ℚ → ℕ
  | [] => 0
  | x :: xs =>
    match minList (xs.map Neg.neg) with
    | none => 0
    | some m => if -x ≤ m then 0 else argmaxIdx xs + 1

/-- Per-row postprocessing of run_prediction: threshold at one half; if the
binarized row has no hit, force the slot at the argmax of the binarized row
(always index 0 on an all-zero row) to 1.0; then keep the label of every slot
equal to 1.0. -/
def run_prediction_row (probs : List ℚ) : List String :=
  let outputs := binarize probs
  let outputs := if outputs.sum = 0 then outputs.set (argmaxIdx outputs) 1 else outputs
  (drum_hits.zip outputs).filterMap (fun p => if p.2 = 1 then some p.1 else none)

/-- Seconds spanned by the written durations of a subdivision candidate under
a given bpm: music21 quarter lengths scaled by the quarter-note duration
60 / bpm. -/
def subdivision_seconds (bpm : ℚ) (sub : Subdivision) : ℚ :=
  (60 / bpm) * sub.durations.sum

/-! Helper lemmas about the argmin model. -/

/-- The value returned by minList is a member of the list and a lower bound. -/
theorem minList_spec : ∀ (l : List ℚ) (m : ℚ), minList l = some m →
    m ∈ l ∧ ∀ y ∈ l, m ≤ y := by
  intro l
  induction l with
  | nil => intro m h; simp [minList] at h
  | cons x xs ih =>
    intro m h
    cases hxs : minList xs with
    | none =>
      have hnil : xs = [] := by
        cases xs with
        | nil => rfl
        | cons y ys => simp [minList] at hxs
      subst hnil
      simp [minList] at h
      subst h
      simp
    | some m' =>
      obtain ⟨hmem, hle⟩ := ih m' hxs
      simp [minList, hxs] at h
      subst h
      constructor
      · rcases le_total x m' with hc | hc
        · simp [min_eq_left hc]
        · simp [min_eq_right hc, hmem]
      · intro y hy
        rcases List.mem_cons.mp hy with rfl | hy'
        · exact min_le_left _ _
        · exact le_trans (min_le_right _ _) (hle y hy')

/-- A member of a rational list is reached by getD at some index. -/
theorem mem_getD_index : ∀ (l : List ℚ) (m : ℚ), m ∈ l →
    ∃ j, j < l.length ∧ l.getD j 0 = m := by
  intro l
  induction l with
  | nil => intro m h; simp at h
  | cons x xs ih =>
    intro m h
    rcases List.mem_cons.mp h with rfl | h'
    · exact ⟨0, by simp, rfl⟩
    · obtain ⟨j, hj, hval⟩ := ih m h'
      exact ⟨j + 1, by simpa using hj, hval⟩

/-- The argmin index is in range for a nonempty list. -/
theorem argminIdx_lt : ∀ (l : List ℚ), l ≠ [] → argminIdx l < l.length := by
  intro l
  induction l with
  | nil => intro h; exact absurd rfl h
  | cons x xs ih =>
    intro _
    cases hxs : minList xs with
    | none => simp [argminIdx, hxs]
    | some m =>
      by_cases hx : x ≤ m
      · simp [argminIdx, hxs, hx]
      · have hne : xs ≠ [] := by
          intro hnil; rw [hnil] at hxs; simp [minList] at hxs
        have := ih hne
        simp only [argminIdx, hxs, if_neg hx, List.length_cons]
        omega

/-- Values read by getD inside the range are members of the list. -/
theorem getD_mem_of_lt : ∀ (l : List ℚ) (j : ℕ), j < l.length → l.getD j 0 ∈ l := by
  intro l
  induction l with
  | nil => intro j hj; simp at hj
  | cons x xs ih =>
    intro j hj
    cases j with
    | zero => simp
    | succ k =>
      have hk : k < xs.length := by simpa using hj
      simpa using Or.inr (ih k hk)

/-- The argmin value is a lower bound of the list. -/
theorem argminIdx_le : ∀ (l : List ℚ) (j : ℕ), j < l.length →
    l.getD (argminIdx l) 0 ≤ l.getD j 0 := by
  intro l
  induction l with
  | nil => intro j hj; simp at hj
  | cons x xs ih =>
    intro j hj
    cases hxs : minList xs with
    | none =>
      have hnil : xs = [] := by
        cases xs with
        | nil => rfl
        | cons y ys => simp [minList] at hxs
      subst hnil
      have hj0 : j = 0 := by simpa using hj
      subst hj0
      simp [argminIdx, minList]
    | some m =>
      obtain ⟨hmem, hlb⟩ := minList_spec xs m hxs
      by_cases hx : x ≤ m
      · simp only [argminIdx, hxs, if_pos hx]
        cases j with
        | zero => simp
        | succ k =>
          have hk : k < xs.length := by simpa using hj
          have : m ≤ xs.getD k 0 := hlb _ (getD_mem_of_lt xs k hk)
          simpa using le_trans hx this
      · simp only [argminIdx, hxs, if_neg hx]
        obtain ⟨jm, hjm, hval⟩ := mem_getD_index xs m hmem
        have hxm : m < x := lt_of_not_le hx
        cases j with
        | zero =>
          have h1 : xs.getD (argminIdx xs) 0 ≤ xs.getD jm 0 := ih jm hjm
          rw [hval] at h1
          simpa using le_of_lt (lt_of_le_of_lt h1 hxm)
        | succ k =>
          have hk : k < xs.length := by simpa using hj
          simpa using ih k hk

/-- Every entry strictly before the argmin index is strictly larger
(np.argmin returns the first occurrence of the minimum). -/
theorem argminIdx_first : ∀ (l : List ℚ) (j : ℕ), j < argminIdx l →
    l.getD (argminIdx l) 0 < l.getD j 0 := by
  intro l
  induction l with
  | nil => intro j hj; simp [argminIdx] at hj
  | cons x xs ih =>
    intro j hj
    cases hxs : minList xs with
    | none => simp [argminIdx, hxs] at hj
    | some m =>
      by_cases hx : x ≤ m
      · simp [argminIdx, hxs, hx] at hj
      · simp only [argminIdx, hxs, if_neg hx] at hj ⊢
        obtain ⟨hmem, hlb⟩ := minList_spec xs m hxs
        obtain ⟨jm, hjm, hval⟩ := mem_getD_index xs m hmem
        have hxm : m < x := lt_of_not_le hx
        cases j with
        | zero =>
          have h1 : xs.getD (argminIdx xs) 0 ≤ xs.getD jm 0 := argminIdx_le xs jm hjm
          rw [hval] at h1
          simpa using lt_of_le_of_lt h1 hxm
        | succ k =>
          have hk : k < argminIdx xs := by omega
          simpa using ih k hk

/-- Characterization of argminIdx: any index carrying a lower bound of the
list that is strictly beaten by every earlier entry is the argmin. -/
theorem argminIdx_eq (l : List ℚ) (i : ℕ) (hi : i < l.length)
    (hfirst : ∀ j, j < i → l.getD i 0 < l.getD j 0)
    (hle : ∀ j, j < l.length → l.getD i 0 ≤ l.getD j 0) :
    argminIdx l = i := by
  have hne : l ≠ [] := by
    intro h; rw [h] at hi; simp at hi
  rcases lt_trichotomy (argminIdx l) i with hlt | heq | hgt
  · have h1 := hfirst _ hlt
    have h2 := argminIdx_le l i hi
    exact absurd (lt_of_le_of_lt h2 h1) (lt_irrefl _)
  · exact heq
  · have h1 := argminIdx_first l i hgt
    have h2 := hle _ (argminIdx_lt l hne)
    exact absurd (lt_of_le_of_lt h2 h1) (lt_irrefl _)

/-- getD through List.map, inside the range. -/
theorem getD_map_lt (f : Subdivision → ℚ) : ∀ (l : List Subdivision) (j : ℕ),
    j < l.length → (l.map f).getD j 0 = f (l.getD j ⟨[], []⟩) := by
  intro l
  induction l with
  | nil => intro j hj; simp at hj
  | cons x xs ih =>
    intro j hj
    cases j with
    | zero => simp
    | succ k =>
      have hk : k < xs.length := by simpa using hj
      simpa using ih k hk

/-- Evaluation of get_closest_match at a known argmin index. -/
theorem get_closest_match_eq (notes : List NoteRow) (subs : List Subdivision)
    (i : ℕ) (hi : i < subs.length)
    (hfirst : ∀ j, j < i → subdiv_distance notes (subs.getD i ⟨[], []⟩) <
      subdiv_distance notes (subs.getD j ⟨[], []⟩))
    (hle : ∀ j, j < subs.length → subdiv_distance notes (subs.getD i ⟨[], []⟩) ≤
      subdiv_distance notes (subs.getD j ⟨[], []⟩)) :
    get_closest_match notes subs =
      ⟨subdiv_distance notes (subs.getD i ⟨[], []⟩),
       (subs.getD i ⟨[], []⟩).durations, notes.map NoteRow.hits⟩ := by
  have hlen : (subs.map (subdiv_distance notes)).length = subs.length := by simp
  have hargm : argminIdx (subs.map (subdiv_distance notes)) = i := by
    apply argminIdx_eq _ _ (by omega)
    · intro j hj
      rw [getD_map_lt _ _ _ (by omega), getD_map_lt _ _ _ (by omega)]
      exact hfirst j hj
    · intro j hj
      rw [getD_map_lt _ _ _ (by omega), getD_map_lt _ _ _ (by omega)]
      exact hle j (by omega)
  simp only [get_closest_match, hargm]
  rw [getD_map_lt _ _ _ hi]

/-! Claim theorems. -/

/-- C6: for every eighth-note interval in which zero onsets fall, the straight
subdivision matcher returns a Match of exactly one eighth-note duration marked
as a rest, with distance 0. -/
theorem c6_zero_onsets_single_rest_eighth (start_time end_time : ℚ)
    (time_sig : TimeSignature) (h : start_time < end_time) :
    ENSubs.match start_time end_time time_sig [] =
      .ok ⟨0, [Duration.eighth_note], [Hit.rest]⟩ := rfl

/-- Witness for C6 at the concrete interval from 0 to 1 in 4/4. -/
theorem c6_zero_onsets_single_rest_eighth_witness :
    (0 : ℚ) < 1 ∧
    ENSubs.match 0 1 ⟨4, 4⟩ [] = .ok ⟨0, [Duration.eighth_note], [Hit.rest]⟩ :=
  ⟨by norm_num, c6_zero_onsets_single_rest_eighth 0 1 ⟨4, 4⟩ (by norm_num)⟩

/-- C10: for every onset table and nonempty candidate list (of matching
predicted-time arity), the closest match is built from a candidate of minimal
summed absolute distance, and on exact ties from the candidate listed earliest
in the enumeration order. -/
theorem c10_closest_match_minimal_and_earliest (notes : List NoteRow)
    (subs : List Subdivision) (hne : subs ≠ [])
    (hlen : ∀ sub ∈ subs, sub.times.length = notes.length) :
    ∃ i, i < subs.length ∧
      get_closest_match notes subs =
        ⟨subdiv_distance notes (subs.getD i ⟨[], []⟩),
         (subs.getD i ⟨[], []⟩).durations, notes.map NoteRow.hits⟩ ∧
      (∀ j, j < subs.length → subdiv_distance notes (subs.getD i ⟨[], []⟩) ≤
        subdiv_distance notes (subs.getD j ⟨[], []⟩)) ∧
      (∀ j, j < i → subdiv_distance notes (subs.getD i ⟨[], []⟩) <
        subdiv_distance notes (subs.getD j ⟨[], []⟩)) := by
  have hlenm : (subs.map (subdiv_distance notes)).length = subs.length := by simp
  have ha : argminIdx (subs.map (subdiv_distance notes)) <
      (subs.map (subdiv_distance notes)).length :=
    argminIdx_lt _ (by simpa using hne)
  have ha' : argminIdx (subs.map (subdiv_distance notes)) < subs.length := by omega
  have hle' : ∀ j, j < subs.length →
      subdiv_distance notes
        (subs.getD (argminIdx (subs.map (subdiv_distance notes))) ⟨[], []⟩) ≤
      subdiv_distance notes (subs.getD j ⟨[], []⟩) := by
    intro j hj
    have h := argminIdx_le (subs.map (subdiv_distance notes)) j (by omega)
    rw [getD_map_lt _ _ _ ha', getD_map_lt _ _ _ hj] at h
    exact h
  have hfirst' : ∀ j, j < argminIdx (subs.map (subdiv_distance notes)) →
      subdiv_distance notes
        (subs.getD (argminIdx (subs.map (subdiv_distance notes))) ⟨[], []⟩) <
      subdiv_distance notes (subs.getD j ⟨[], []⟩) := by
    intro j hj
    have h := argminIdx_first (subs.map (subdiv_distance notes)) j hj
    rw [getD_map_lt _ _ _ ha', getD_map_lt _ _ _ (by omega)] at h
    exact h
  exact ⟨argminIdx (subs.map (subdiv_distance notes)), ha',
    get_closest_match_eq notes subs _ ha' hfirst' hle', hle', hfirst'⟩

/-- Witness for C10 at a concrete one-note table against two candidates that
tie in distance: the earlier candidate is chosen. -/
theorem c10_closest_match_minimal_and_earliest_witness :
    ([(⟨[1], [Duration.sixteenth_note]⟩ : Subdivision),
      ⟨[-1], [Duration.eighth_note]⟩] ≠ []) ∧
    ∃ i, i < 2 ∧
      get_closest_match [⟨0, 0, Hit.hits ["KD"]⟩]
          [⟨[1], [Duration.sixteenth_note]⟩, ⟨[-1], [Duration.eighth_note]⟩] =
        ⟨subdiv_distance [⟨0, 0, Hit.hits ["KD"]⟩]
          ([(⟨[1], [Duration.sixteenth_note]⟩ : Subdivision),
            ⟨[-1], [Duration.eighth_note]⟩].getD i ⟨[], []⟩),
         ([(⟨[1], [Duration.sixteenth_note]⟩ : Subdivision),
            ⟨[-1], [Duration.eighth_note]⟩].getD i ⟨[], []⟩).durations,
         [⟨0, 0, Hit.hits ["KD"]⟩].map NoteRow.hits⟩ ∧
      (∀ j, j < 2 → subdiv_distance [⟨0, 0, Hit.hits ["KD"]⟩]
          ([(⟨[1], [Duration.sixteenth_note]⟩ : Subdivision),
            ⟨[-1], [Duration.eighth_note]⟩].getD i ⟨[], []⟩) ≤
        subdiv_distance [⟨0, 0, Hit.hits ["KD"]⟩]
          ([(⟨[1], [Duration.sixteenth_note]⟩ : Subdivision),
            ⟨[-1], [Duration.eighth_note]⟩].getD j ⟨[], []⟩)) ∧
      (∀ j, j < i → subdiv_distance [⟨0, 0, Hit.hits ["KD"]⟩]
          ([(⟨[1], [Duration.sixteenth_note]⟩ : Subdivision),
            ⟨[-1], [Duration.eighth_note]⟩].getD i ⟨[], []⟩) <
        subdiv_distance [⟨0, 0, Hit.hits ["KD"]⟩]
          ([(⟨[1], [Duration.sixteenth_note]⟩ : Subdivision),
            ⟨[-1], [Duration.eighth_note]⟩].getD j ⟨[], []⟩)) := by
  refine ⟨by decide, ?_⟩
  have h := c10_closest_match_minimal_and_earliest [⟨0, 0, Hit.hits ["KD"]⟩]
    [⟨[1], [Duration.sixteenth_note]⟩, ⟨[-1], [Duration.eighth_note]⟩]
    (by decide) (by decide)
  simpa using h

/-- C1 counterexample: on the two-point grid [0, 1] with an empty (hence
trivially sorted and well-formed) onset table, the stride loop body runs with
i = 0 and reads grid[2], one past the end of the grid: the matcher fails with
an index error instead of returning a durations/notes pair. -/
theorem c1_even_grid_counterexample :
    match_by_eighth_notes [0, 1] [] ⟨4, 4⟩ 0 = .error .indexError := rfl

/-- The straight matcher cannot fail on a slice of at most four onsets: the
drop-by-label path is never entered. -/
theorem match_notes_ok_of_le_four (c : ENSubs) (notes : List NoteRow)
    (h : notes.length ≤ 4) : ∃ m, c.match_notes notes = .ok m := by
  unfold ENSubs.match_notes
  by_cases h0 : notes.length = 0
  · simp [h0]
  · have h4 : ¬ 4 < notes.length := by omega
    simp [h0, h4]

/-- One stride of the matcher succeeds when both of its eighth-note interval
slices hold at most four onsets. -/
theorem matchStride_ok (notes : List NoteRow) (ts : TimeSignature) (tol : ℚ)
    (g0 g1 g2 : ℚ)
    (h1 : (get_notes_within_tolerance notes g0 g1 tol).length ≤ 4)
    (h2 : (get_notes_within_tolerance notes g1 g2 tol).length ≤ 4) :
    ∃ m, matchStride notes ts tol g0 g1 g2 = .ok m := by
  obtain ⟨m1, hm1⟩ := match_notes_ok_of_le_four (ENSubs.init g0 g1 ts) _ h1
  obtain ⟨m2, hm2⟩ := match_notes_ok_of_le_four (ENSubs.init g1 g2 ts) _ h2
  simp only [matchStride, ENSubs.match]
  rw [hm1, hm2]
  cases ENTupletSubs.match g0 g2 ts
      (get_notes_within_tolerance notes g0 g1 tol ++
       get_notes_within_tolerance notes g1 g2 tol) with
  | none => exact ⟨_, rfl⟩
  | some t => exact ⟨_, rfl⟩

/-- C1 amended: the matcher terminates normally on every grid with an odd
number of points (a whole number of two-eighth-note strides) whose eighth-note
interval slices each hold at most four onsets.  An even grid length makes the
stride loop read one past the grid end (see the counterexample), and a slice
of more than four onsets can abort in the drop-by-label step (see C4). -/
theorem c1_amended_odd_grid_small_slices_ok (grid : List ℚ)
    (notes : List NoteRow) (ts : TimeSignature) (tol : ℚ)
    (hodd : grid.length % 2 = 1)
    (hslices : ∀ p ∈ grid.zip grid.tail,
      (get_notes_within_tolerance notes p.1 p.2 tol).length ≤ 4) :
    ∃ r, match_by_eighth_notes grid notes ts tol = .ok r := by
  have main : ∀ (n : ℕ) (g : List ℚ), g.length = n → g.length % 2 = 1 →
      (∀ p ∈ g.zip g.tail,
        (get_notes_within_tolerance notes p.1 p.2 tol).length ≤ 4) →
      ∃ r, matchAux notes ts tol g = .ok r := by
    intro n
    induction n using Nat.strong_induction_on with
    | _ n ih =>
      intro g hlen ho hs
      rcases g with _ | ⟨g0, _ | ⟨g1, _ | ⟨g2, rest⟩⟩⟩
      · simp at ho
      · exact ⟨([], []), rfl⟩
      · simp at ho
      · have h01 : (get_notes_within_tolerance notes g0 g1 tol).length ≤ 4 :=
          hs (g0, g1) (by simp)
        have h12 : (get_notes_within_tolerance notes g1 g2 tol).length ≤ 4 :=
          hs (g1, g2) (by simp)
        obtain ⟨m, hm⟩ := matchStride_ok notes ts tol g0 g1 g2 h01 h12
        have hlt : (g2 :: rest).length < n := by
          simp at hlen ⊢
          omega
        have ho' : (g2 :: rest).length % 2 = 1 := by
          simp at ho ⊢
          omega
        have hs' : ∀ p ∈ (g2 :: rest).zip (g2 :: rest).tail,
            (get_notes_within_tolerance notes p.1 p.2 tol).length ≤ 4 := by
          intro p hp
          apply hs
          simp only [List.tail_cons, List.zip_cons_cons]
          exact List.mem_cons_of_mem _ (List.mem_cons_of_mem _ hp)
        obtain ⟨⟨ds, ns⟩, hr⟩ := ih _ hlt (g2 :: rest) rfl ho' hs'
        refine ⟨(m.durations ++ ds, m.notes ++ ns), ?_⟩
        simp only [matchAux]
        rw [hm, hr]
  exact main grid.length grid rfl hodd hslices

/-- Witness for the amended C1 at the concrete grid [0, 1, 2] with an empty
onset table. -/
theorem c1_amended_odd_grid_small_slices_ok_witness :
    ([0, 1, 2] : List ℚ).length % 2 = 1 ∧
    (∀ p ∈ ([0, 1, 2] : List ℚ).zip ([0, 1, 2] : List ℚ).tail,
      (get_notes_within_tolerance [] p.1 p.2 0).length ≤ 4) ∧
    ∃ r, match_by_eighth_notes [0, 1, 2] [] ⟨4, 4⟩ 0 = .ok r :=
  ⟨by decide, by decide,
   c1_amended_odd_grid_small_slices_ok [0, 1, 2] [] ⟨4, 4⟩ 0 (by decide) (by decide)⟩

/-- C3 counterexample: with sorted raw grid [0, 1], sorted onsets [1/20] and
tolerance 1/10, the synchronizer snaps the FIRST grid point to the onset 1/20
instead of keeping it fixed as-is, and it carries no drift accumulator: the
unmatched second point stays at its raw value. -/
theorem c3_first_point_snapped_counterexample :
    sync_eighth_note_grid_to_onsets [0, 1] [1/20] (1/10) = [1/20, 1] ∧
    ((1 : ℚ)/20 ≠ 0) := by
  constructor
  · simp only [sync_eighth_note_grid_to_onsets, syncAux, List.dropWhile_cons,
      List.dropWhile_nil]
    norm_num [abs_le]
  · norm_num

/-- The synced grid has the same length as the raw grid. -/
theorem syncAux_length (tol : ℚ) : ∀ (onsets grid : List ℚ),
    (syncAux tol onsets grid).length = grid.length := by
  intro onsets grid
  induction grid generalizing onsets with
  | nil => rfl
  | cons g rest ih => simp [syncAux, ih]

/-- C3 amended: the synchronizer has no drift accumulator and treats every
grid point, including the first, uniformly: after advancing the persistent
onset cursor past onsets below point minus tolerance, a point is snapped to
the cursor onset exactly when that onset lies within tolerance of the RAW
point, and otherwise is left at its raw value (not at previous point plus
eighth-note duration).  Hence every synced point is either its raw grid value
or some onset within tolerance of that raw value. -/
theorem c3_amended_sync_snaps_raw_or_onset (tol : ℚ) (onsets grid : List ℚ) :
    (sync_eighth_note_grid_to_onsets grid onsets tol).length = grid.length ∧
    ∀ i, i < grid.length →
      (sync_eighth_note_grid_to_onsets grid onsets tol).getD i 0 =
        grid.getD i 0 ∨
      ∃ o ∈ onsets, (sync_eighth_note_grid_to_onsets grid onsets tol).getD i 0 = o ∧
        |o - grid.getD i 0| ≤ tol := by
  constructor
  · exact syncAux_length tol onsets grid
  · intro i hi
    induction grid generalizing onsets i with
    | nil => simp at hi
    | cons g rest ih =>
      cases i with
      | zero =>
        simp only [sync_eighth_note_grid_to_onsets, syncAux, List.getD_cons_zero]
        have hsub : List.Sublist
            (onsets.dropWhile fun o => decide (o < g - tol)) onsets :=
          List.dropWhile_sublist _
        cases honsets : (onsets.dropWhile fun o => decide (o < g - tol)) with
        | nil => simp
        | cons o os =>
          rw [honsets] at hsub
          simp only [List.head?_cons]
          by_cases htol : |o - g| ≤ tol
          · right
            exact ⟨o, hsub.subset (List.mem_cons_self o os), by simp [htol], htol⟩
          · left
            simp [htol]
      | succ k =>
        have hk : k < rest.length := by simpa using hi
        have ih' := ih (onsets.dropWhile fun o => decide (o < g - tol)) k hk
        simp only [sync_eighth_note_grid_to_onsets, syncAux, List.getD_cons_succ]
        have hsub : List.Sublist
            (onsets.dropWhile fun o => decide (o < g - tol)) onsets :=
          List.dropWhile_sublist _
        rcases ih' with hraw | ⟨o, ho, hval, htol⟩
        · left
          exact hraw
        · right
          exact ⟨o, hsub.subset ho, hval, htol⟩

/-- Witness for the amended C3 at grid [0, 1], onsets [1/20], tolerance 1/10,
index 0. -/
theorem c3_amended_sync_snaps_raw_or_onset_witness :
    (sync_eighth_note_grid_to_onsets [0, 1] [1/20] (1/10)).length =
      ([0, 1] : List ℚ).length ∧
    ((sync_eighth_note_grid_to_onsets [0, 1] [1/20] (1/10)).getD 0 0 =
        ([0, 1] : List ℚ).getD 0 0 ∨
      ∃ o ∈ ([1/20] : List ℚ),
        (sync_eighth_note_grid_to_onsets [0, 1] [1/20] (1/10)).getD 0 0 = o ∧
        |o - ([0, 1] : List ℚ).getD 0 0| ≤ 1/10) :=
  ⟨(c3_amended_sync_snaps_raw_or_onset (1/10) [1/20] [0, 1]).1,
   (c3_amended_sync_snaps_raw_or_onset (1/10) [1/20] [0, 1]).2 0 (by decide)⟩

/-- C4 failing input: a cluster of five onsets inside one eighth-note interval
whose pandas row labels are 10..14 (the interval is not at the start of the
track).  The drop step computes positional gap indices but DataFrame.drop
removes rows by LABEL, so the drop raises KeyError instead of degrading
gracefully to four notes. -/
theorem c4_shifted_labels_drop_keyerror :
    ENSubs.match 0 1 ⟨4, 4⟩
      [⟨10, 1/2, Hit.hits ["KD"]⟩, ⟨11, 1/2, Hit.hits ["KD"]⟩,
       ⟨12, 1/2, Hit.hits ["KD"]⟩, ⟨13, 1/2, Hit.hits ["KD"]⟩,
       ⟨14, 1/2, Hit.hits ["KD"]⟩] = .error .keyError := by
  have habs : listAbsDiffs [1/2, 1/2, 1/2, 1/2, 1/2] = [0, 0, 0, 0] := by
    simp [listAbsDiffs]
  simp only [ENSubs.match, ENSubs.match_notes]
  rw [show (List.map NoteRow.peak_time
    [⟨10, 1/2, Hit.hits ["KD"]⟩, ⟨11, 1/2, Hit.hits ["KD"]⟩,
     ⟨12, 1/2, Hit.hits ["KD"]⟩, ⟨13, 1/2, Hit.hits ["KD"]⟩,
     ⟨14, 1/2, Hit.hits ["KD"]⟩]) = [1/2, 1/2, 1/2, 1/2, 1/2] from rfl, habs]
  rfl

/-! Bitwise characterization of the power-of-two check of eighth_note_beat. -/

/-- Bitwise and of an odd number with its predecessor keeps the shifted bits. -/
theorem land_odd_pred (m : ℕ) : (2 * m + 1) &&& (2 * m) = 2 * m := by
  apply Nat.eq_of_testBit_eq
  intro i
  have h1 : (2 * m + 1) / 2 = m := by omega
  have h2 : (2 * m) / 2 = m := by omega
  have h3 : (2 * m + 1) % 2 = 1 := by omega
  have h4 : (2 * m) % 2 = 0 := by omega
  cases i with
  | zero => simp [Nat.testBit_land, Nat.testBit_zero, h3, h4]
  | succ j =>
    simp only [Nat.testBit_land]
    simp [Nat.testBit_add_one, h1, h2]

/-- Bitwise and of an even number with an odd number doubles the shifted and. -/
theorem land_even_odd (m k : ℕ) : (2 * m) &&& (2 * k + 1) = 2 * (m &&& k) := by
  apply Nat.eq_of_testBit_eq
  intro i
  have h1 : (2 * m) / 2 = m := by omega
  have h2 : (2 * k + 1) / 2 = k := by omega
  have h3 : (2 * (m &&& k)) / 2 = m &&& k := by omega
  have h4 : (2 * m) % 2 = 0 := by omega
  have h5 : (2 * (m &&& k)) % 2 = 0 := by omega
  cases i with
  | zero => simp [Nat.testBit_land, Nat.testBit_zero, h4, h5]
  | succ j =>
    simp only [Nat.testBit_land]
    simp [Nat.testBit_add_one, h1, h2, h3, Nat.testBit_land]

/-- The classic bit trick: n with n-1 has vanishing bitwise and exactly when a
positive n is a power of two. -/
theorem nat_land_pred_eq_zero_iff : ∀ n : ℕ, 0 < n →
    ((n &&& (n - 1)) = 0 ↔ ∃ k : ℕ, n = 2 ^ k) := by
  intro n
  induction n using Nat.strong_induction_on with
  | _ n ih =>
    intro hn
    rcases Nat.even_or_odd n with he | ho
    · obtain ⟨m, hm⟩ := he
      have hm2 : n = 2 * m := by omega
      have hmpos : 0 < m := by omega
      rw [hm2, show 2 * m - 1 = 2 * (m - 1) + 1 by omega, land_even_odd]
      have hml : m < n := by omega
      have hiff := ih m hml hmpos
      have hm1 : m - 1 = m - 1 := rfl
      constructor
      · intro h
        have hz : m &&& (m - 1) = 0 := by omega
        obtain ⟨k, hk⟩ := hiff.mp hz
        exact ⟨k + 1, by rw [hk, pow_succ]; ring⟩
      · rintro ⟨k, hk⟩
        cases k with
        | zero =>
          simp at hk
        | succ j =>
          have hmj : m = 2 ^ j := by
            rw [pow_succ] at hk
            omega
          have hz : m &&& (m - 1) = 0 := hiff.mpr ⟨j, hmj⟩
          omega
    · obtain ⟨m, hm⟩ := ho
      rw [hm, show 2 * m + 1 - 1 = 2 * m by omega, land_odd_pred]
      rcases Nat.eq_zero_or_pos m with hm0 | hmpos
      · subst hm0
        constructor
        · intro _
          exact ⟨0, by omega⟩
        · intro _
          omega
      · constructor
        · intro h
          omega
        · rintro ⟨k, hk⟩
          cases k with
          | zero => omega
          | succ j =>
            rw [pow_succ] at hk
            omega

/-- A power of two passes the bit-trick check at the natural level. -/
theorem nat_pow_two_land_pred (k : ℕ) : ((2 ^ k) &&& (2 ^ k - 1)) = 0 :=
  (nat_land_pred_eq_zero_iff (2 ^ k) (Nat.pos_pow_of_pos k (by norm_num))).mpr ⟨k, rfl⟩

/-- Int.land on two natural casts is the cast of Nat.land. -/
theorem int_land_ofNat (a b : ℕ) : Int.land (a : ℤ) (b : ℤ) = ((a &&& b : ℕ) : ℤ) := rfl

/-- Int.land on two negative numbers is negative (never zero). -/
theorem int_land_negSucc (a b : ℕ) :
    Int.land (Int.negSucc a) (Int.negSucc b) = Int.negSucc (a ||| b) := rfl

/-- A power of two passes the bit-trick check at the integer level. -/
theorem int_pow_two_land_pred (k : ℕ) : Int.land ((2 : ℤ) ^ k) ((2 : ℤ) ^ k - 1) = 0 := by
  have h1 : ((2 : ℤ) ^ k) = ((2 ^ k : ℕ) : ℤ) := by push_cast; ring
  have h2 : ((2 : ℤ) ^ k - 1) = ((2 ^ k - 1 : ℕ) : ℤ) := by
    have : (1 : ℕ) ≤ 2 ^ k := Nat.one_le_two_pow
    push_cast [this]
    ring
  rw [h2, h1, int_land_ofNat, nat_pow_two_land_pred]
  rfl

/-- A nonzero integer that is not a power of two fails the bit-trick check. -/
theorem int_land_pred_ne_zero (n : ℤ) (hnz : n ≠ 0) (hnp : ¬ ∃ k : ℕ, n = 2 ^ k) :
    Int.land n (n - 1) ≠ 0 := by
  rcases n with a | a
  · cases a with
    | zero => exact absurd rfl hnz
    | succ b =>
      have h2 : ((b + 1 : ℕ) : ℤ) - 1 = ((b + 1 - 1 : ℕ) : ℤ) := by push_cast; ring
      rw [show Int.ofNat (b + 1) = ((b + 1 : ℕ) : ℤ) from rfl, h2, int_land_ofNat]
      intro hc
      have hz : ((b + 1) &&& (b + 1 - 1)) = 0 := by exact_mod_cast hc
      obtain ⟨k, hk⟩ := (nat_land_pred_eq_zero_iff (b + 1) (by omega)).mp hz
      apply hnp
      exact ⟨k, by rw [show Int.ofNat (b + 1) = ((b + 1 : ℕ) : ℤ) from rfl, hk]; push_cast; ring⟩
  · rw [Int.negSucc_sub_one, int_land_negSucc]
    intro hc
    cases hc

/-- Bitwise set difference of zero with zero is zero (Nat.bitwise is defined
by well-founded recursion, so this is proved by bit extensionality rather than
by evaluation). -/
theorem nat_ldiff_zero_zero : Nat.ldiff 0 0 = 0 := by
  apply Nat.eq_of_testBit_eq
  intro i
  simp [Nat.testBit_ldiff]

/-- The power-of-two bit trick wrongly accepts note_value 0: zero AND minus
one is zero. -/
theorem int_land_zero_pred : Int.land 0 (0 - 1) = 0 := by
  show Int.land (Int.ofNat 0) (Int.negSucc 0) = 0
  show ((Nat.ldiff 0 0 : ℕ) : ℤ) = 0
  rw [nat_ldiff_zero_zero]
  rfl

/-- C7 counterexample: note_value 0 is not a power of two, yet the power-of-two
assertion passes (0 AND -1 is 0) and eighth_note_beat fails with a
ZeroDivisionError in the conversion arithmetic, not with the precondition
(assertion) violation promised by the claim. -/
theorem c7_zero_note_value_counterexample :
    TimeSignature.eighth_note_beat ⟨4, 0⟩ 1 = .error .zeroDivisionError ∧
    Err.zeroDivisionError ≠ Err.assertionError := by
  constructor
  · have hland := int_land_zero_pred
    simp only [TimeSignature.eighth_note_beat, hland, eq_self_iff_true, if_true,
      le_refl, if_pos]
  · decide

/-- C7 amended: for note_value a power of two and pos at least 1 with the
converted position inside the measure, eighth_note_beat returns
(pos - 1) * (8 / note_value) + 1, and the returned values are monotone in pos;
it fails with the precondition (assertion) violation when pos is below 1, when
note_value is nonzero and not a power of two, or when the converted position
exceeds the measure length; but for note_value 0 the power-of-two assertion
wrongly passes and the failure is a division by zero instead. -/
theorem c7_amended_eighth_note_beat :
    (∀ (b : ℤ) (k : ℕ) (pos : ℚ), 1 ≤ pos →
      (pos - 1) * (8 / (((2 : ℤ) ^ k : ℤ) : ℚ)) + 1 ≤
        (b : ℚ) * (8 / (((2 : ℤ) ^ k : ℤ) : ℚ)) →
      TimeSignature.eighth_note_beat ⟨b, 2 ^ k⟩ pos =
        .ok ((pos - 1) * (8 / (((2 : ℤ) ^ k : ℤ) : ℚ)) + 1)) ∧
    (∀ (ts : TimeSignature) (pos pos' v v' : ℚ), pos ≤ pos' → 0 < ts.note_value →
      TimeSignature.eighth_note_beat ts pos = .ok v →
      TimeSignature.eighth_note_beat ts pos' = .ok v' → v ≤ v') ∧
    (∀ (b n : ℤ) (pos : ℚ), pos < 1 →
      TimeSignature.eighth_note_beat ⟨b, n⟩ pos = .error .assertionError) ∧
    (∀ (b n : ℤ) (pos : ℚ), 1 ≤ pos → n ≠ 0 → (¬ ∃ k : ℕ, n = 2 ^ k) →
      TimeSignature.eighth_note_beat ⟨b, n⟩ pos = .error .assertionError) ∧
    (∀ (b : ℤ) (k : ℕ) (pos : ℚ), 1 ≤ pos →
      ¬ ((pos - 1) * (8 / (((2 : ℤ) ^ k : ℤ) : ℚ)) + 1 ≤
        (b : ℚ) * (8 / (((2 : ℤ) ^ k : ℤ) : ℚ))) →
      TimeSignature.eighth_note_beat ⟨b, 2 ^ k⟩ pos = .error .assertionError) ∧
    (∀ (b : ℤ) (pos : ℚ), 1 ≤ pos →
      TimeSignature.eighth_note_beat ⟨b, 0⟩ pos = .error .zeroDivisionError) := by
  refine ⟨?_, ?_, ?_, ?_, ?_, ?_⟩
  · intro b k pos hpos hle
    have hland := int_pow_two_land_pred k
    have hnz : ((2 : ℤ) ^ k) ≠ 0 := by positivity
    simp only [TimeSignature.eighth_note_beat, if_pos hpos, hland,
      eq_self_iff_true, if_true, if_neg hnz, if_pos hle]
  · intro ts pos pos' v v' hpp hnv hv hv'
    have extract : ∀ (p w : ℚ), TimeSignature.eighth_note_beat ts p = .ok w →
        w = (p - 1) * (8 / ((ts.note_value : ℤ) : ℚ)) + 1 := by
      intro p w hw
      simp only [TimeSignature.eighth_note_beat] at hw
      split_ifs at hw
      · simp only [Except.ok.injEq] at hw
        exact hw.symm
    have hv1 := extract pos v hv
    have hv2 := extract pos' v' hv'
    have hc : (0 : ℚ) < 8 / ((ts.note_value : ℤ) : ℚ) := by
      have : (0 : ℚ) < ((ts.note_value : ℤ) : ℚ) := by exact_mod_cast hnv
      positivity
    rw [hv1, hv2]
    have := mul_le_mul_of_nonneg_right (sub_le_sub_right hpp 1) (le_of_lt hc)
    linarith
  · intro b n pos hpos
    have hpos' : ¬ (1 ≤ pos) := not_le.mpr hpos
    simp only [TimeSignature.eighth_note_beat, if_neg hpos']
  · intro b n pos hpos hnz hnp
    have hland := int_land_pred_ne_zero n hnz hnp
    simp only [TimeSignature.eighth_note_beat, if_pos hpos, if_neg hland]
  · intro b k pos hpos hexceeds
    have hland := int_pow_two_land_pred k
    have hnz : ((2 : ℤ) ^ k) ≠ 0 := by positivity
    simp only [TimeSignature.eighth_note_beat, if_pos hpos, hland,
      eq_self_iff_true, if_true, if_neg hnz, if_neg hexceeds]
  · intro b pos hpos
    have hland := int_land_zero_pred
    simp only [TimeSignature.eighth_note_beat, if_pos hpos, hland,
      eq_self_iff_true, if_true]

/-- Witness for the amended C7: 4/4 time, beat position 2 converts to
eighth-note position 3. -/
theorem c7_amended_eighth_note_beat_witness :
    (1 : ℚ) ≤ 2 ∧
    ((2 : ℚ) - 1) * (8 / (((2 : ℤ) ^ 2 : ℤ) : ℚ)) + 1 ≤
      ((4 : ℤ) : ℚ) * (8 / (((2 : ℤ) ^ 2 : ℤ) : ℚ)) ∧
    TimeSignature.eighth_note_beat ⟨4, 2 ^ 2⟩ 2 =
      .ok (((2 : ℚ) - 1) * (8 / (((2 : ℤ) ^ 2 : ℤ) : ℚ)) + 1) :=
  ⟨by norm_num, by norm_num,
   c7_amended_eighth_note_beat.1 4 2 2 (by norm_num) (by norm_num)⟩

/-- The bit trick accepts 4 (a power of two). -/
theorem int_land_four_three : Int.land 4 3 = 0 := by
  have h := int_pow_two_land_pred 2
  norm_num at h
  exact h

/-- Evaluation of eighth_note_beat in 4/4 at the downbeat. -/
theorem enb_four_four_one : TimeSignature.eighth_note_beat ⟨4, 4⟩ 1 = .ok 1 := by
  have hland : Int.land 4 (4 - 1) = 0 := by norm_num [int_land_four_three]
  simp only [TimeSignature.eighth_note_beat, hland, eq_self_iff_true, if_true]
  norm_num

/-- C8 counterexample: with bpm 120, 4/4, track duration 1 s, start beat 1 and
first onset at 2 s, measure_start is 2, which is nonnegative, yet the returned
grid is EMPTY (np.arange(2, 1, 0.25) has no points), so no grid with
grid[0] == measure_start is returned. -/
theorem c8_empty_grid_counterexample :
    get_eighth_note_time_grid ⟨120, ⟨4, 4⟩, 1, 44100, 1⟩ 2 = .ok [] ∧
    (0 : ℚ) ≤ 2 - (1 - 1) * BPM.eighth_note 120 := by
  constructor
  · simp only [get_eighth_note_time_grid, enb_four_four_one]
    norm_num [BPM.eighth_note, arange]
    intro x
    have h4 : ⌈(-4 : ℚ)⌉ = -4 := by
      rw [show (-4 : ℚ) = ((-4 : ℤ) : ℚ) by norm_num, Int.ceil_intCast]
    rw [h4]
    omega
  · norm_num [BPM.eighth_note]

/-- C8 amended: when the declared start beat converts successfully and bpm is
positive, a negative measure start fails the assertion (never clamped); a
nonnegative measure start that also lies BELOW the track duration yields a
grid whose first point is the measure start.  (For measure start at or beyond
the duration the assertion passes but the returned grid is empty, as the
counterexample shows.) -/
theorem c8_amended_grid_builder (sd : SongData) (t enb : ℚ)
    (henb : sd.time_signature.eighth_note_beat sd.start_beat = .ok enb)
    (hbpm : 0 < sd.bpm) :
    (t - (enb - 1) * BPM.eighth_note sd.bpm < 0 →
      get_eighth_note_time_grid sd t = .error .assertionError) ∧
    (0 ≤ t - (enb - 1) * BPM.eighth_note sd.bpm →
      t - (enb - 1) * BPM.eighth_note sd.bpm < sd.duration →
      ∃ g, get_eighth_note_time_grid sd t = .ok g ∧
        g.head? = some (t - (enb - 1) * BPM.eighth_note sd.bpm)) := by
  have hbpm' : sd.bpm ≠ 0 := ne_of_gt hbpm
  constructor
  · intro hneg
    simp only [get_eighth_note_time_grid, henb, if_neg hbpm', if_pos hneg]
  · intro h0 hdur
    have hnneg : ¬ (t - (enb - 1) * BPM.eighth_note sd.bpm < 0) := not_lt.mpr h0
    simp only [get_eighth_note_time_grid, henb, if_neg hbpm', if_neg hnneg]
    refine ⟨_, rfl, ?_⟩
    have hstep : 0 < BPM.eighth_note sd.bpm := by
      unfold BPM.eighth_note
      positivity
    have hstep' : BPM.eighth_note sd.bpm ≠ 0 := ne_of_gt hstep
    have hquot : 0 < (sd.duration - (t - (enb - 1) * BPM.eighth_note sd.bpm)) /
        BPM.eighth_note sd.bpm := by
      apply div_pos _ hstep
      linarith
    have hceil : 0 < ⌈(sd.duration - (t - (enb - 1) * BPM.eighth_note sd.bpm)) /
        BPM.eighth_note sd.bpm⌉ := Int.ceil_pos.mpr hquot
    have hn : 0 < Int.toNat ⌈(sd.duration - (t - (enb - 1) * BPM.eighth_note sd.bpm)) /
        BPM.eighth_note sd.bpm⌉ := by omega
    unfold arange
    rw [if_neg hstep']
    obtain ⟨m, hm⟩ := Nat.exists_eq_succ_of_ne_zero (Nat.pos_iff_ne_zero.mp hn)
    rw [hm, List.range_succ_eq_map]
    simp

/-- Witness for the amended C8: bpm 120, 4/4, duration 1 s, start beat 1,
first onset at 1/4 s: the grid starts at measure start 1/4. -/
theorem c8_amended_grid_builder_witness :
    ((⟨120, ⟨4, 4⟩, 1, 44100, 1⟩ : SongData)).time_signature.eighth_note_beat
      ((⟨120, ⟨4, 4⟩, 1, 44100, 1⟩ : SongData)).start_beat = .ok 1 ∧
    (0 : ℚ) < 120 ∧
    (0 : ℚ) ≤ 1/4 - (1 - 1) * BPM.eighth_note 120 ∧
    1/4 - (1 - 1) * BPM.eighth_note 120 <
      ((⟨120, ⟨4, 4⟩, 1, 44100, 1⟩ : SongData)).duration ∧
    ∃ g, get_eighth_note_time_grid ⟨120, ⟨4, 4⟩, 1, 44100, 1⟩ (1/4) = .ok g ∧
      g.head? = some (1/4 - (1 - 1) * BPM.eighth_note 120) :=
  ⟨enb_four_four_one, by norm_num, by norm_num [BPM.eighth_note],
   by norm_num [BPM.eighth_note],
   (c8_amended_grid_builder ⟨120, ⟨4, 4⟩, 1, 44100, 1⟩ (1/4) 1 enb_four_four_one
     (by norm_num)).2 (by norm_num [BPM.eighth_note]) (by norm_num [BPM.eighth_note])⟩

/-! Helper lemmas for the prediction postprocessing. -/

/-- getD through List.map on rationals, inside the range. -/
theorem getD_map_rat (f : ℚ → ℚ) : ∀ (l : List ℚ) (j : ℕ),
    j < l.length → (l.map f).getD j 0 = f (l.getD j 0) := by
  intro l
  induction l with
  | nil => intro j hj; simp at hj
  | cons x xs ih =>
    intro j hj
    cases j with
    | zero => simp
    | succ k =>
      have hk : k < xs.length := by simpa using hj
      simpa using ih k hk

/-- The binarized row sums to a nonnegative value. -/
theorem binarize_sum_nonneg (l : List ℚ) : 0 ≤ (binarize l).sum := by
  induction l with
  | nil => simp [binarize]
  | cons x xs ih =>
    simp only [binarize, List.map_cons, List.sum_cons] at ih ⊢
    have h : (0 : ℚ) ≤ if 1 / 2 < x then (1 : ℚ) else 0 := by
      split <;> norm_num
    linarith

/-- The binarized row sums to zero exactly when no probability clears the
threshold. -/
theorem binarize_sum_eq_zero_iff (l : List ℚ) :
    (binarize l).sum = 0 ↔ ∀ p ∈ l, ¬ (1 / 2 < p) := by
  induction l with
  | nil => simp [binarize]
  | cons x xs ih =>
    have hx : (0 : ℚ) ≤ if 1 / 2 < x then (1 : ℚ) else 0 := by
      split <;> norm_num
    have hxs := binarize_sum_nonneg xs
    simp only [binarize] at hxs
    simp only [binarize, List.map_cons, List.sum_cons] at ih ⊢
    constructor
    · intro h p hp
      rcases List.mem_cons.mp hp with rfl | hp'
      · intro hgt
        rw [if_pos hgt] at h hx
        linarith
      · have hz : (List.map (fun p => if 1 / 2 < p then (1 : ℚ) else 0) xs).sum = 0 := by
          by_cases hgt : 1 / 2 < x
          · rw [if_pos hgt] at h
            linarith
          · rw [if_neg hgt] at h
            linarith
        exact ih.mp hz p hp'
    · intro h
      rw [if_neg (h x (List.mem_cons_self x xs)),
        ih.mpr fun p hp => h p (List.mem_cons_of_mem x hp)]
      norm_num

/-- np.argmax of an all-zero row is index 0. -/
theorem argmax_zeros (l : List ℚ) (h : ∀ x ∈ l, x = 0) : argmaxIdx l = 0 := by
  cases l with
  | nil => rfl
  | cons x xs =>
    simp only [argmaxIdx]
    cases hm : minList (xs.map Neg.neg) with
    | none => rfl
    | some m =>
      obtain ⟨hmem, _⟩ := minList_spec _ m hm
      obtain ⟨y, hy, hym⟩ := List.mem_map.mp hmem
      have hy0 : y = 0 := h y (List.mem_cons_of_mem _ hy)
      have hx0 : x = 0 := h x (List.mem_cons_self _ _)
      have hle : -x ≤ m := by
        rw [hx0, ← hym, hy0]
      simp [hle]

/-- The binarized entry at a slot whose probability clears the threshold is 1. -/
theorem getD_binarize (l : List ℚ) (i : ℕ) (hi : i < l.length)
    (hp : 1 / 2 < l.getD i 0) : (binarize l).getD i 0 = 1 := by
  unfold binarize
  rw [getD_map_rat _ _ _ hi, if_pos hp]

/-- A slot holding value 1 contributes its label to the masked-hits list. -/
theorem zip_filterMap_mem (ls : List String) : ∀ (qs : List ℚ) (i : ℕ),
    i < ls.length → i < qs.length → qs.getD i 0 = 1 →
    ls.getD i "" ∈ (ls.zip qs).filterMap
      (fun p => if p.2 = 1 then some p.1 else none) := by
  induction ls with
  | nil => intro qs i hi; simp at hi
  | cons s ls ih =>
    intro qs i hi hq hval
    cases qs with
    | nil => simp at hq
    | cons q qs =>
      cases i with
      | zero =>
        simp only [List.getD_cons_zero] at hval
        simp [List.zip_cons_cons, List.filterMap_cons, hval]
      | succ j =>
        have hrec := ih qs j (by simpa using hi) (by simpa using hq)
          (by simpa using hval)
        simp only [List.zip_cons_cons, List.filterMap_cons, List.getD_cons_succ]
        by_cases hq1 : q = 1
        · simp only [hq1, if_pos rfl]
          exact List.mem_cons_of_mem _ hrec
        · simp only [if_neg hq1]
          exact hrec

/-- An all-zero tail contributes no labels to the masked-hits list. -/
theorem zip_filterMap_zeros (ls : List String) : ∀ (qs : List ℚ),
    (∀ x ∈ qs, x = 0) →
    (ls.zip qs).filterMap (fun p => if p.2 = 1 then some p.1 else none) = [] := by
  induction ls with
  | nil => intro qs _; simp
  | cons s ls ih =>
    intro qs h
    cases qs with
    | nil => simp
    | cons q qs =>
      have hq : q = 0 := h q (List.mem_cons_self q qs)
      have hq1 : ¬ (q = 1) := by
        rw [hq]
        norm_num
      simp only [List.zip_cons_cons, List.filterMap_cons, if_neg hq1]
      exact ih qs fun x hx => h x (List.mem_cons_of_mem q hx)

/-- C9: every length-6 probability row receives a nonempty label list: every
label above the 0.5 threshold is attached, and a row with no probability above
the threshold is forced to exactly one label (index 0, the snare tag, since
argmax runs on the already-binarized all-zero row). -/
theorem c9_prediction_rows_always_labeled (probs : List ℚ)
    (h6 : probs.length = 6) :
    run_prediction_row probs ≠ [] ∧
    (∀ i, i < 6 → 1 / 2 < probs.getD i 0 →
      drum_hits.getD i "" ∈ run_prediction_row probs) ∧
    ((∀ p ∈ probs, ¬ (1 / 2 < p)) → run_prediction_row probs = ["SD"]) := by
  by_cases hz : (binarize probs).sum = 0
  · have hall : ∀ p ∈ probs, ¬ 1 / 2 < p := (binarize_sum_eq_zero_iff probs).mp hz
    have hbin0 : ∀ x ∈ binarize probs, x = 0 := by
      intro x hx
      obtain ⟨p, hp, hfx⟩ := List.mem_map.mp hx
      rw [← hfx, if_neg (hall p hp)]
    have hargmax : argmaxIdx (binarize probs) = 0 := argmax_zeros _ hbin0
    have hres : run_prediction_row probs = ["SD"] := by
      cases probs with
      | nil => simp at h6
      | cons q qs =>
        have htail : ∀ x ∈ qs.map (fun p => if 1 / 2 < p then (1 : ℚ) else 0),
            x = 0 := by
          intro x hx
          apply hbin0
          simp only [binarize, List.map_cons]
          exact List.mem_cons_of_mem _ hx
        simp only [binarize, List.map_cons] at hz hargmax
        simp only [run_prediction_row, binarize, List.map_cons, if_pos hz, hargmax,
          List.set_cons_zero, drum_hits, List.zip_cons_cons, List.filterMap_cons,
          eq_self_iff_true, if_true]
        rw [zip_filterMap_zeros _ _ htail]
    refine ⟨by rw [hres]; simp, ?_, fun _ => hres⟩
    intro i hi hp
    have hi' : i < probs.length := by omega
    exact absurd hp (hall _ (getD_mem_of_lt probs i hi'))
  · have hres : run_prediction_row probs =
        (drum_hits.zip (binarize probs)).filterMap
          (fun p => if p.2 = 1 then some p.1 else none) := by
      simp only [run_prediction_row, if_neg hz]
    have hmemof : ∀ i, i < 6 → 1 / 2 < probs.getD i 0 →
        drum_hits.getD i "" ∈ run_prediction_row probs := by
      intro i hi hp
      have hi' : i < probs.length := by omega
      have hb1 := getD_binarize probs i hi' hp
      have hlb : (binarize probs).length = probs.length := by simp [binarize]
      have hmem := zip_filterMap_mem drum_hits (binarize probs) i
        (by rw [show drum_hits.length = 6 from rfl]; omega) (by omega) hb1
      rw [hres]
      exact hmem
    refine ⟨?_, hmemof, ?_⟩
    · have hex : ∃ p ∈ probs, 1 / 2 < p := by
        by_contra hno
        push_neg at hno
        exact hz ((binarize_sum_eq_zero_iff probs).mpr
          fun p hp => not_lt.mpr (hno p hp))
      obtain ⟨p, hp, hgt⟩ := hex
      obtain ⟨i, hi, hval⟩ := mem_getD_index probs p hp
      have := hmemof i (by omega) (by rw [hval]; exact hgt)
      exact List.ne_nil_of_mem this
    · intro hall
      exact absurd ((binarize_sum_eq_zero_iff probs).mpr hall) hz

/-- Witness for C9 at the concrete probability row [3/4, 0, 0, 0, 0, 0]. -/
theorem c9_prediction_rows_always_labeled_witness :
    ([3/4, 0, 0, 0, 0, 0] : List ℚ).length = 6 ∧
    (run_prediction_row [3/4, 0, 0, 0, 0, 0] ≠ [] ∧
     (∀ i, i < 6 → 1 / 2 < ([3/4, 0, 0, 0, 0, 0] : List ℚ).getD i 0 →
       drum_hits.getD i "" ∈ run_prediction_row [3/4, 0, 0, 0, 0, 0]) ∧
     ((∀ p ∈ ([3/4, 0, 0, 0, 0, 0] : List ℚ), ¬ (1 / 2 < p)) →
       run_prediction_row [3/4, 0, 0, 0, 0, 0] = ["SD"])) :=
  ⟨rfl, c9_prediction_rows_always_labeled [3/4, 0, 0, 0, 0, 0] rfl⟩

/-- C2 counterexample: the lone-sixteenth candidate (pattern 0010) of the
interval from 0 to 1 second in 4/4 carries durations summing to half a second,
not the full one-second interval: the implied leading rest is not part of the
durations list, so the candidate does not tile its interval. -/
theorem c2_sixteenth_candidate_does_not_tile :
    subdivision_seconds (ENSubs.init 0 1 ⟨4, 4⟩).bpm
      ((ENSubs.init 0 1 ⟨4, 4⟩).sixteenth_note) = 1/2 ∧ ((1 : ℚ)/2 ≠ 1) := by
  constructor
  · norm_num [subdivision_seconds, ENSubs.init, ENSubs.sixteenth_note,
      BPM.from_eighth_note, Duration.sixteenth_note]
  · norm_num

/-- C2 amended: in 4/4, a straight candidate's durations span at most the
eighth-note interval, with equality exactly when its first predicted time is
the interval start (patterns with an implied leading rest under-cover); among
the tuplet candidates only the 3-note triplet tiles the two-eighth-note span,
the 2-note rested tuplets dropping their implied rest from the durations. -/
theorem c2_amended_candidate_tiling (s L : ℚ) (hL : 0 < L) :
    (∀ (n : ℕ), ∀ sub ∈ (ENSubs.init s (s + L) ⟨4, 4⟩).get_possible_subdivisions n,
      subdivision_seconds (ENSubs.init s (s + L) ⟨4, 4⟩).bpm sub ≤ L ∧
      (subdivision_seconds (ENSubs.init s (s + L) ⟨4, 4⟩).bpm sub = L ↔
        sub.times.head? = some s)) ∧
    (∀ (n : ℕ), ∀ sub ∈
        (ENTupletSubs.init s (s + 2 * L) ⟨4, 4⟩).get_possible_subdivisions n,
      subdivision_seconds (ENTupletSubs.init s (s + 2 * L) ⟨4, 4⟩).bpm sub ≤ 2 * L ∧
      (subdivision_seconds (ENTupletSubs.init s (s + 2 * L) ⟨4, 4⟩).bpm sub = 2 * L ↔
        n = 3)) := by
  have hL' : L ≠ 0 := ne_of_gt hL
  have hbpmS : (ENSubs.init s (s + L) ⟨4, 4⟩).bpm = 30 / L := by
    simp only [ENSubs.init, BPM.from_eighth_note]
    rw [show s + L - s = L by ring]
    push_cast
    ring
  have hbpmT : (ENTupletSubs.init s (s + 2 * L) ⟨4, 4⟩).bpm = 30 / L := by
    simp only [ENTupletSubs.init, BPM.from_eighth_note]
    rw [show (s + 2 * L - s) / 2 = L by ring]
    push_cast
    ring
  have hstS : (ENSubs.init s (s + L) ⟨4, 4⟩).start_time = s := rfl
  have hfactor : (60 : ℚ) / (30 / L) = 2 * L := by
    rw [div_div_eq_mul_div]
    ring
  have hsec : ∀ sub : Subdivision, subdivision_seconds (30 / L) sub =
      2 * L * sub.durations.sum := by
    intro sub
    rw [subdivision_seconds, hfactor]
  have h16 : BPM.sixteenth_note (30 / L) = L / 2 := by
    rw [BPM.sixteenth_note, div_div_eq_mul_div]
    ring
  have h32 : BPM.thirty_second_note (30 / L) = L / 4 := by
    rw [BPM.thirty_second_note, div_div_eq_mul_div]
    ring
  have hd16 : BPM.dotted_sixteenth_note (30 / L) = 3 * L / 4 := by
    rw [BPM.dotted_sixteenth_note, h16]
    ring
  constructor
  · intro n sub hsub
    rw [hbpmS]
    rcases n with _ | _ | _ | _ | _ | n <;>
      simp only [ENSubs.get_possible_subdivisions, List.mem_cons,
        List.not_mem_nil, or_false] at hsub
    · rcases hsub with rfl | rfl | rfl | rfl <;>
        simp only [ENSubs.thirty_second_note, ENSubs.sixteenth_note,
          ENSubs.dotted_sixteenth_note, ENSubs.eighth_note, hbpmS, hstS,
          hsec, h16, h32, hd16,
          Duration.thirty_second_note, Duration.sixteenth_note,
          Duration.dotted_sixteenth_note, Duration.eighth_note,
          List.sum_cons, List.sum_nil, List.head?_cons, Option.some.injEq] <;>
        refine ⟨by linarith, ?_⟩ <;>
        constructor <;> intro h <;> first | rfl | trivial | linarith
    · rcases hsub with rfl | rfl | rfl | rfl | rfl | rfl <;>
        simp only [ENSubs.two_thirty_second_notes,
          ENSubs.sixteenth_and_thirty_second, ENSubs.thirty_second_and_sixteenth,
          ENSubs.dotted_sixteenth_and_thirty_second, ENSubs.two_sixteenth_notes,
          ENSubs.thirty_second_and_dotted_sixteenth, hbpmS, hstS,
          hsec, h16, h32, hd16,
          Duration.thirty_second_note, Duration.sixteenth_note,
          Duration.dotted_sixteenth_note, Duration.eighth_note,
          List.sum_cons, List.sum_nil, List.head?_cons, Option.some.injEq] <;>
        refine ⟨by linarith, ?_⟩ <;>
        constructor <;> intro h <;> first | rfl | trivial | linarith
    · rcases hsub with rfl | rfl | rfl | rfl <;>
        simp only [ENSubs.three_thirty_second_notes,
          ENSubs.sixteenth_and_two_thirty_seconds,
          ENSubs.thirty_second_and_sixteenth_and_thirty_second,
          ENSubs.two_thirty_second_notes_and_sixteenth, hbpmS, hstS,
          hsec, h16, h32, hd16,
          Duration.thirty_second_note, Duration.sixteenth_note,
          Duration.dotted_sixteenth_note, Duration.eighth_note,
          List.sum_cons, List.sum_nil, List.head?_cons, Option.some.injEq] <;>
        refine ⟨by linarith, ?_⟩ <;>
        constructor <;> intro h <;> first | rfl | trivial | linarith
    · rcases hsub with rfl
      simp only [ENSubs.four_thirty_second_notes, hbpmS, hstS, hsec, h32,
        Duration.thirty_second_note,
        List.sum_cons, List.sum_nil, List.head?_cons, Option.some.injEq]
      refine ⟨by linarith, ?_⟩
      constructor <;> intro h <;> first | rfl | trivial | linarith
  · intro n sub hsub
    rw [hbpmT]
    rcases n with _ | _ | _ | _ | n <;>
      simp only [ENTupletSubs.get_possible_subdivisions, List.mem_cons,
        List.not_mem_nil, or_false] at hsub
    · rcases hsub with rfl | rfl | rfl <;>
        simp only [ENTupletSubs.rested_first, ENTupletSubs.rested_second,
          ENTupletSubs.rested_third, hsec,
          Duration.eighth_note_triplet, List.sum_cons, List.sum_nil] <;>
        refine ⟨by linarith, ?_⟩ <;>
        constructor <;> intro h
      · exfalso
        linarith
      · exact absurd h (by omega)
      · exfalso
        linarith
      · exact absurd h (by omega)
      · exfalso
        linarith
      · exact absurd h (by omega)
    · rcases hsub with rfl
      simp only [ENTupletSubs.three_triplets, hsec,
        Duration.eighth_note_triplet, List.sum_cons, List.sum_nil]
      refine ⟨by linarith, ?_⟩
      constructor
      · intro _
        trivial
      · intro _
        linarith

/-- Witness for the amended C2: in the interval from 0 to 1 second, the plain
eighth-note candidate spans at most (here exactly) the interval. -/
theorem c2_amended_candidate_tiling_witness :
    (0 : ℚ) < 1 ∧
    subdivision_seconds (ENSubs.init 0 (0 + 1) ⟨4, 4⟩).bpm
      ((ENSubs.init 0 (0 + 1) ⟨4, 4⟩).eighth_note) ≤ 1 :=
  ⟨by norm_num,
   ((c2_amended_candidate_tiling 0 1 (by norm_num)).1 1
     ((ENSubs.init 0 (0 + 1) ⟨4, 4⟩).eighth_note)
     (by simp [ENSubs.get_possible_subdivisions])).1⟩

/-- Difference-of-shifted-values absolute value. -/
theorem abs_shift_sub (a x y : ℚ) : |(a + x) - (a + y)| = |x - y| := by
  rw [show (a + x) - (a + y) = x - y by ring]

/-- Absolute value of a left-shifted difference. -/
theorem abs_sub_add (a y : ℚ) : |a - (a + y)| = |y| := by
  rw [show a - (a + y) = -y by ring, abs_neg]

/-- C5: for every two-eighth-note span holding exactly three evenly spaced
onsets (at 0, 1/3 and 2/3 of the span), the triplet tuplet Match has distance
0, the two independent straight matches together cost L/6 > 0, and the stride
therefore selects the tuplet Match. -/
theorem c5_triplet_chosen_over_straight (s L : ℚ) (hL : 0 < L) (h0 h1 h2 : Hit) :
    ∃ fm sm : Match,
      ENSubs.match s (s + L) ⟨4, 4⟩
        (get_notes_within_tolerance
          [⟨0, s, h0⟩, ⟨1, s + 2*L/3, h1⟩, ⟨2, s + 4*L/3, h2⟩] s (s + L) 0) = .ok fm ∧
      ENSubs.match (s + L) (s + 2*L) ⟨4, 4⟩
        (get_notes_within_tolerance
          [⟨0, s, h0⟩, ⟨1, s + 2*L/3, h1⟩, ⟨2, s + 4*L/3, h2⟩] (s + L) (s + 2*L) 0) =
        .ok sm ∧
      ENTupletSubs.match s (s + 2*L) ⟨4, 4⟩
        (get_notes_within_tolerance
          [⟨0, s, h0⟩, ⟨1, s + 2*L/3, h1⟩, ⟨2, s + 4*L/3, h2⟩] s (s + L) 0 ++
         get_notes_within_tolerance
          [⟨0, s, h0⟩, ⟨1, s + 2*L/3, h1⟩, ⟨2, s + 4*L/3, h2⟩] (s + L) (s + 2*L) 0) =
        some ⟨0, [Duration.eighth_note_triplet, Duration.eighth_note_triplet,
          Duration.eighth_note_triplet], [h0, h1, h2]⟩ ∧
      (fm.add sm).distance = L/6 ∧
      (0 : ℚ) < (fm.add sm).distance ∧
      matchStride [⟨0, s, h0⟩, ⟨1, s + 2*L/3, h1⟩, ⟨2, s + 4*L/3, h2⟩] ⟨4, 4⟩ 0
          s (s + L) (s + 2*L) =
        .ok ⟨0, [Duration.eighth_note_triplet, Duration.eighth_note_triplet,
          Duration.eighth_note_triplet], [h0, h1, h2]⟩ := by
  -- interval bpm values
  have hbpm1 : (ENSubs.init s (s + L) ⟨4, 4⟩).bpm = 30 / L := by
    simp only [ENSubs.init, BPM.from_eighth_note]
    rw [show s + L - s = L by ring]
    push_cast
    ring
  have hbpm2 : (ENSubs.init (s + L) (s + 2*L) ⟨4, 4⟩).bpm = 30 / L := by
    simp only [ENSubs.init, BPM.from_eighth_note]
    rw [show s + 2*L - (s + L) = L by ring]
    push_cast
    ring
  have hbpmT : (ENTupletSubs.init s (s + 2*L) ⟨4, 4⟩).bpm = 30 / L := by
    simp only [ENTupletSubs.init, BPM.from_eighth_note]
    rw [show (s + 2*L - s) / 2 = L by ring]
    push_cast
    ring
  have h16 : BPM.sixteenth_note (30 / L) = L / 2 := by
    rw [BPM.sixteenth_note, div_div_eq_mul_div]
    ring
  have h32 : BPM.thirty_second_note (30 / L) = L / 4 := by
    rw [BPM.thirty_second_note, div_div_eq_mul_div]
    ring
  have hd16 : BPM.dotted_sixteenth_note (30 / L) = 3 * L / 4 := by
    rw [BPM.dotted_sixteenth_note, h16]
    ring
  have ht3 : BPM.eighth_note_triplet (30 / L) = 2 * L / 3 := by
    rw [BPM.eighth_note_triplet, div_div_eq_mul_div]
    ring
  -- the two interval slices
  have hA : ¬ (4*L/3 < 0) := by intro h; linarith
  have hB : ¬ (2*L/3 < 0) := by intro h; linarith
  have hC : ¬ (4*L/3 ≤ L) := by intro h; linarith
  have hD : 2*L/3 ≤ L := by linarith
  have hE : (0 : ℚ) ≤ L := le_of_lt hL
  have hG : 2*L/3 < L := by linarith
  have hH : ¬ (4*L/3 < L) := by intro h; linarith
  have hI : (0 : ℚ) ≤ 2*L := by linarith
  have hJ : 2*L/3 ≤ 2*L := by linarith
  have hK : 4*L/3 ≤ 2*L := by linarith
  have hfirst : get_notes_within_tolerance
      [⟨0, s, h0⟩, ⟨1, s + 2*L/3, h1⟩, ⟨2, s + 4*L/3, h2⟩] s (s + L) 0 =
      [⟨0, s, h0⟩, ⟨1, s + 2*L/3, h1⟩] := by
    simp [get_notes_within_tolerance, List.countP_cons, hA, hB, hC, hD, hE]
  have hsecond : get_notes_within_tolerance
      [⟨0, s, h0⟩, ⟨1, s + 2*L/3, h1⟩, ⟨2, s + 4*L/3, h2⟩] (s + L) (s + 2*L) 0 =
      [⟨2, s + 4*L/3, h2⟩] := by
    simp [get_notes_within_tolerance, List.countP_cons, hL, hG, hH, hI, hJ, hK]
  -- absolute-value evaluations of the matched-time residuals
  have hst1 : (ENSubs.init s (s + L) ⟨4, 4⟩).start_time = s := rfl
  have hst2 : (ENSubs.init (s + L) (s + 2*L) ⟨4, 4⟩).start_time = s + L := rfl
  have hstT : (ENTupletSubs.init s (s + 2*L) ⟨4, 4⟩).start_time = s := rfl
  have e1 : |s - (s + L / 2)| = L/2 := by
    rw [abs_sub_add, abs_of_nonneg (by linarith : (0:ℚ) ≤ L / 2)]
  have e2 : |s + 2*L/3 - (s + 3 * L / 4)| = L/12 := by
    rw [show s + 2*L/3 - (s + 3 * L / 4) = -(L/12) by ring, abs_neg,
      abs_of_nonneg (by linarith : (0:ℚ) ≤ L/12)]
  have e3 : |s - (s + L / 4)| = L/4 := by
    rw [abs_sub_add, abs_of_nonneg (by linarith : (0:ℚ) ≤ L / 4)]
  have e4 : |s + 2*L/3 - (s + L / 2)| = L/6 := by
    rw [show s + 2*L/3 - (s + L / 2) = L/6 by ring,
      abs_of_nonneg (by linarith : (0:ℚ) ≤ L/6)]
  have e5 : |s - s| = 0 := by
    rw [sub_self, abs_zero]
  have e6 : |s + 2*L/3 - (s + L / 4)| = 5*L/12 := by
    rw [show s + 2*L/3 - (s + L / 4) = 5*L/12 by ring,
      abs_of_nonneg (by linarith : (0:ℚ) ≤ 5*L/12)]
  have e7 : |s + 2*L/3 - (s + 3 * L / 4)| = L/12 := e2
  have f1 : |s + 4*L/3 - (s + L + 3 * L / 4)| = 5*L/12 := by
    rw [show s + 4*L/3 - (s + L + 3 * L / 4) = -(5*L/12) by ring, abs_neg,
      abs_of_nonneg (by linarith : (0:ℚ) ≤ 5*L/12)]
  have f2 : |s + 4*L/3 - (s + L + L / 2)| = L/6 := by
    rw [show s + 4*L/3 - (s + L + L / 2) = -(L/6) by ring, abs_neg,
      abs_of_nonneg (by linarith : (0:ℚ) ≤ L/6)]
  have f3 : |s + 4*L/3 - (s + L + L / 4)| = L/12 := by
    rw [show s + 4*L/3 - (s + L + L / 4) = L/12 by ring,
      abs_of_nonneg (by linarith : (0:ℚ) ≤ L/12)]
  have f4 : |s + 4*L/3 - (s + L)| = L/3 := by
    rw [show s + 4*L/3 - (s + L) = L/3 by ring,
      abs_of_nonneg (by linarith : (0:ℚ) ≤ L/3)]
  have g2 : |s + 2*L/3 - (s + 2 * L / 3)| = 0 := by
    rw [show s + 2*L/3 - (s + 2 * L / 3) = 0 by ring, abs_zero]
  have g3 : |s + 4*L/3 - (s + 2 * L / 3 * 2)| = 0 := by
    rw [show s + 4*L/3 - (s + 2 * L / 3 * 2) = 0 by ring, abs_zero]
  -- distances of the two onsets of the first interval to each 2-note candidate
  have hD0 : subdiv_distance [⟨0, s, h0⟩, ⟨1, s + 2*L/3, h1⟩]
      ((ENSubs.init s (s + L) ⟨4, 4⟩).two_thirty_second_notes) = 7*L/12 := by
    simp only [subdiv_distance, ENSubs.two_thirty_second_notes, hbpm1, hst1, h16, hd16,
      List.map_cons, List.map_nil, List.zipWith_cons_cons, List.zipWith_nil_left,
      List.sum_cons, List.sum_nil, e1, e2]
    ring
  have hD1 : subdiv_distance [⟨0, s, h0⟩, ⟨1, s + 2*L/3, h1⟩]
      ((ENSubs.init s (s + L) ⟨4, 4⟩).sixteenth_and_thirty_second) = L/3 := by
    simp only [subdiv_distance, ENSubs.sixteenth_and_thirty_second, hbpm1, hst1, h32, hd16,
      List.map_cons, List.map_nil, List.zipWith_cons_cons, List.zipWith_nil_left,
      List.sum_cons, List.sum_nil, e3, e2]
    ring
  have hD2 : subdiv_distance [⟨0, s, h0⟩, ⟨1, s + 2*L/3, h1⟩]
      ((ENSubs.init s (s + L) ⟨4, 4⟩).thirty_second_and_sixteenth) = 5*L/12 := by
    simp only [subdiv_distance, ENSubs.thirty_second_and_sixteenth, hbpm1, hst1, h32, h16,
      List.map_cons, List.map_nil, List.zipWith_cons_cons, List.zipWith_nil_left,
      List.sum_cons, List.sum_nil, e3, e4]
    ring
  have hD3 : subdiv_distance [⟨0, s, h0⟩, ⟨1, s + 2*L/3, h1⟩]
      ((ENSubs.init s (s + L) ⟨4, 4⟩).dotted_sixteenth_and_thirty_second) = L/12 := by
    simp only [subdiv_distance, ENSubs.dotted_sixteenth_and_thirty_second, hbpm1, hst1, hd16,
      List.map_cons, List.map_nil, List.zipWith_cons_cons, List.zipWith_nil_left,
      List.sum_cons, List.sum_nil, e5, e2]
    ring
  have hD4 : subdiv_distance [⟨0, s, h0⟩, ⟨1, s + 2*L/3, h1⟩]
      ((ENSubs.init s (s + L) ⟨4, 4⟩).two_sixteenth_notes) = L/6 := by
    simp only [subdiv_distance, ENSubs.two_sixteenth_notes, hbpm1, hst1, h16,
      List.map_cons, List.map_nil, List.zipWith_cons_cons, List.zipWith_nil_left,
      List.sum_cons, List.sum_nil, e5, e4]
    ring
  have hD5 : subdiv_distance [⟨0, s, h0⟩, ⟨1, s + 2*L/3, h1⟩]
      ((ENSubs.init s (s + L) ⟨4, 4⟩).thirty_second_and_dotted_sixteenth) = 5*L/12 := by
    simp only [subdiv_distance, ENSubs.thirty_second_and_dotted_sixteenth, hbpm1, hst1, h32,
      List.map_cons, List.map_nil, List.zipWith_cons_cons, List.zipWith_nil_left,
      List.sum_cons, List.sum_nil, e5, e6]
    ring
  -- distances of the single onset of the second interval to each 1-note candidate
  have hE0 : subdiv_distance [⟨2, s + 4*L/3, h2⟩]
      ((ENSubs.init (s + L) (s + 2*L) ⟨4, 4⟩).thirty_second_note) = 5*L/12 := by
    simp only [subdiv_distance, ENSubs.thirty_second_note, hbpm2, hst2, hd16,
      List.map_cons, List.map_nil, List.zipWith_cons_cons, List.zipWith_nil_left,
      List.sum_cons, List.sum_nil, f1]
    ring
  have hE1 : subdiv_distance [⟨2, s + 4*L/3, h2⟩]
      ((ENSubs.init (s + L) (s + 2*L) ⟨4, 4⟩).sixteenth_note) = L/6 := by
    simp only [subdiv_distance, ENSubs.sixteenth_note, hbpm2, hst2, h16,
      List.map_cons, List.map_nil, List.zipWith_cons_cons, List.zipWith_nil_left,
      List.sum_cons, List.sum_nil, f2]
    ring
  have hE2 : subdiv_distance [⟨2, s + 4*L/3, h2⟩]
      ((ENSubs.init (s + L) (s + 2*L) ⟨4, 4⟩).dotted_sixteenth_note) = L/12 := by
    simp only [subdiv_distance, ENSubs.dotted_sixteenth_note, hbpm2, hst2, h32,
      List.map_cons, List.map_nil, List.zipWith_cons_cons, List.zipWith_nil_left,
      List.sum_cons, List.sum_nil, f3]
    ring
  have hE3 : subdiv_distance [⟨2, s + 4*L/3, h2⟩]
      ((ENSubs.init (s + L) (s + 2*L) ⟨4, 4⟩).eighth_note) = L/3 := by
    simp only [subdiv_distance, ENSubs.eighth_note, hbpm2, hst2,
      List.map_cons, List.map_nil, List.zipWith_cons_cons, List.zipWith_nil_left,
      List.sum_cons, List.sum_nil, f4]
    ring
  -- the three onsets sit exactly on the triplet grid
  have hT0 : subdiv_distance [⟨0, s, h0⟩, ⟨1, s + 2*L/3, h1⟩, ⟨2, s + 4*L/3, h2⟩]
      ((ENTupletSubs.init s (s + 2*L) ⟨4, 4⟩).three_triplets) = 0 := by
    simp only [subdiv_distance, ENTupletSubs.three_triplets, hbpmT, hstT, ht3,
      List.map_cons, List.map_nil, List.zipWith_cons_cons, List.zipWith_nil_left,
      List.sum_cons, List.sum_nil, e5, g2, g3]
    ring
  -- getD positions inside the candidate tables
  have hg0 : ((ENSubs.init s (s + L) ⟨4, 4⟩).get_possible_subdivisions 2).getD 0 ⟨[], []⟩ =
      (ENSubs.init s (s + L) ⟨4, 4⟩).two_thirty_second_notes := rfl
  have hg1 : ((ENSubs.init s (s + L) ⟨4, 4⟩).get_possible_subdivisions 2).getD 1 ⟨[], []⟩ =
      (ENSubs.init s (s + L) ⟨4, 4⟩).sixteenth_and_thirty_second := rfl
  have hg2 : ((ENSubs.init s (s + L) ⟨4, 4⟩).get_possible_subdivisions 2).getD 2 ⟨[], []⟩ =
      (ENSubs.init s (s + L) ⟨4, 4⟩).thirty_second_and_sixteenth := rfl
  have hg3 : ((ENSubs.init s (s + L) ⟨4, 4⟩).get_possible_subdivisions 2).getD 3 ⟨[], []⟩ =
      (ENSubs.init s (s + L) ⟨4, 4⟩).dotted_sixteenth_and_thirty_second := rfl
  have hg4 : ((ENSubs.init s (s + L) ⟨4, 4⟩).get_possible_subdivisions 2).getD 4 ⟨[], []⟩ =
      (ENSubs.init s (s + L) ⟨4, 4⟩).two_sixteenth_notes := rfl
  have hg5 : ((ENSubs.init s (s + L) ⟨4, 4⟩).get_possible_subdivisions 2).getD 5 ⟨[], []⟩ =
      (ENSubs.init s (s + L) ⟨4, 4⟩).thirty_second_and_dotted_sixteenth := rfl
  have hh0 : ((ENSubs.init (s + L) (s + 2*L) ⟨4, 4⟩).get_possible_subdivisions 1).getD 0 ⟨[], []⟩ =
      (ENSubs.init (s + L) (s + 2*L) ⟨4, 4⟩).thirty_second_note := rfl
  have hh1 : ((ENSubs.init (s + L) (s + 2*L) ⟨4, 4⟩).get_possible_subdivisions 1).getD 1 ⟨[], []⟩ =
      (ENSubs.init (s + L) (s + 2*L) ⟨4, 4⟩).sixteenth_note := rfl
  have hh2 : ((ENSubs.init (s + L) (s + 2*L) ⟨4, 4⟩).get_possible_subdivisions 1).getD 2 ⟨[], []⟩ =
      (ENSubs.init (s + L) (s + 2*L) ⟨4, 4⟩).dotted_sixteenth_note := rfl
  have hh3 : ((ENSubs.init (s + L) (s + 2*L) ⟨4, 4⟩).get_possible_subdivisions 1).getD 3 ⟨[], []⟩ =
      (ENSubs.init (s + L) (s + 2*L) ⟨4, 4⟩).eighth_note := rfl
  have hk0 : ((ENTupletSubs.init s (s + 2*L) ⟨4, 4⟩).get_possible_subdivisions 3).getD 0 ⟨[], []⟩ =
      (ENTupletSubs.init s (s + 2*L) ⟨4, 4⟩).three_triplets := rfl
  -- first interval: the dotted-sixteenth-plus-thirty-second candidate wins at L/12
  have hm1 : get_closest_match [⟨0, s, h0⟩, ⟨1, s + 2*L/3, h1⟩]
      ((ENSubs.init s (s + L) ⟨4, 4⟩).get_possible_subdivisions 2) =
      ⟨L/12, [Duration.dotted_sixteenth_note, Duration.thirty_second_note], [h0, h1]⟩ := by
    have h3lt : (3:ℕ) < ((ENSubs.init s (s + L) ⟨4, 4⟩).get_possible_subdivisions 2).length := by
      simp [ENSubs.get_possible_subdivisions]
    have h3first : ∀ j, j < 3 → subdiv_distance [⟨0, s, h0⟩, ⟨1, s + 2*L/3, h1⟩]
        (((ENSubs.init s (s + L) ⟨4, 4⟩).get_possible_subdivisions 2).getD 3 ⟨[], []⟩) <
        subdiv_distance [⟨0, s, h0⟩, ⟨1, s + 2*L/3, h1⟩]
        (((ENSubs.init s (s + L) ⟨4, 4⟩).get_possible_subdivisions 2).getD j ⟨[], []⟩) := by
      intro j hj
      interval_cases j
      · rw [hg3, hg0, hD3, hD0]
        linarith
      · rw [hg3, hg1, hD3, hD1]
        linarith
      · rw [hg3, hg2, hD3, hD2]
        linarith
    have h3le : ∀ j, j < ((ENSubs.init s (s + L) ⟨4, 4⟩).get_possible_subdivisions 2).length →
        subdiv_distance [⟨0, s, h0⟩, ⟨1, s + 2*L/3, h1⟩]
        (((ENSubs.init s (s + L) ⟨4, 4⟩).get_possible_subdivisions 2).getD 3 ⟨[], []⟩) ≤
        subdiv_distance [⟨0, s, h0⟩, ⟨1, s + 2*L/3, h1⟩]
        (((ENSubs.init s (s + L) ⟨4, 4⟩).get_possible_subdivisions 2).getD j ⟨[], []⟩) := by
      intro j hj
      have hj6 : j < 6 := by
        simpa [ENSubs.get_possible_subdivisions] using hj
      interval_cases j
      · rw [hg3, hg0, hD3, hD0]
        linarith
      · rw [hg3, hg1, hD3, hD1]
        linarith
      · rw [hg3, hg2, hD3, hD2]
        linarith
      · rw [hg3, hD3]
      · rw [hg3, hg4, hD3, hD4]
        linarith
      · rw [hg3, hg5, hD3, hD5]
        linarith
    rw [get_closest_match_eq _ _ 3 h3lt h3first h3le, hg3, hD3]
    simp [ENSubs.dotted_sixteenth_and_thirty_second]
  -- second interval: the dotted-sixteenth candidate wins at L/12
  have hm2 : get_closest_match [⟨2, s + 4*L/3, h2⟩]
      ((ENSubs.init (s + L) (s + 2*L) ⟨4, 4⟩).get_possible_subdivisions 1) =
      ⟨L/12, [Duration.dotted_sixteenth_note], [h2]⟩ := by
    have h2lt : (2:ℕ) < ((ENSubs.init (s + L) (s + 2*L) ⟨4, 4⟩).get_possible_subdivisions 1).length := by
      simp [ENSubs.get_possible_subdivisions]
    have h2first : ∀ j, j < 2 → subdiv_distance [⟨2, s + 4*L/3, h2⟩]
        (((ENSubs.init (s + L) (s + 2*L) ⟨4, 4⟩).get_possible_subdivisions 1).getD 2 ⟨[], []⟩) <
        subdiv_distance [⟨2, s + 4*L/3, h2⟩]
        (((ENSubs.init (s + L) (s + 2*L) ⟨4, 4⟩).get_possible_subdivisions 1).getD j ⟨[], []⟩) := by
      intro j hj
      interval_cases j
      · rw [hh2, hh0, hE2, hE0]
        linarith
      · rw [hh2, hh1, hE2, hE1]
        linarith
    have h2le : ∀ j, j < ((ENSubs.init (s + L) (s + 2*L) ⟨4, 4⟩).get_possible_subdivisions 1).length →
        subdiv_distance [⟨2, s + 4*L/3, h2⟩]
        (((ENSubs.init (s + L) (s + 2*L) ⟨4, 4⟩).get_possible_subdivisions 1).getD 2 ⟨[], []⟩) ≤
        subdiv_distance [⟨2, s + 4*L/3, h2⟩]
        (((ENSubs.init (s + L) (s + 2*L) ⟨4, 4⟩).get_possible_subdivisions 1).getD j ⟨[], []⟩) := by
      intro j hj
      have hj4 : j < 4 := by
        simpa [ENSubs.get_possible_subdivisions] using hj
      interval_cases j
      · rw [hh2, hh0, hE2, hE0]
        linarith
      · rw [hh2, hh1, hE2, hE1]
        linarith
      · rw [hh2, hE2]
      · rw [hh2, hh3, hE2, hE3]
        linarith
    rw [get_closest_match_eq _ _ 2 h2lt h2first h2le, hh2, hE2]
    simp [ENSubs.dotted_sixteenth_note]
  -- tuplet: the single 3-note candidate matches exactly
  have hmT : get_closest_match [⟨0, s, h0⟩, ⟨1, s + 2*L/3, h1⟩, ⟨2, s + 4*L/3, h2⟩]
      ((ENTupletSubs.init s (s + 2*L) ⟨4, 4⟩).get_possible_subdivisions 3) =
      ⟨0, [Duration.eighth_note_triplet, Duration.eighth_note_triplet,
        Duration.eighth_note_triplet], [h0, h1, h2]⟩ := by
    have h0lt : (0:ℕ) < ((ENTupletSubs.init s (s + 2*L) ⟨4, 4⟩).get_possible_subdivisions 3).length := by
      simp [ENTupletSubs.get_possible_subdivisions]
    have h0first : ∀ j, j < 0 → subdiv_distance
        [⟨0, s, h0⟩, ⟨1, s + 2*L/3, h1⟩, ⟨2, s + 4*L/3, h2⟩]
        (((ENTupletSubs.init s (s + 2*L) ⟨4, 4⟩).get_possible_subdivisions 3).getD 0 ⟨[], []⟩) <
        subdiv_distance [⟨0, s, h0⟩, ⟨1, s + 2*L/3, h1⟩, ⟨2, s + 4*L/3, h2⟩]
        (((ENTupletSubs.init s (s + 2*L) ⟨4, 4⟩).get_possible_subdivisions 3).getD j ⟨[], []⟩) := by
      intro j hj
      omega
    have h0le : ∀ j, j < ((ENTupletSubs.init s (s + 2*L) ⟨4, 4⟩).get_possible_subdivisions 3).length →
        subdiv_distance [⟨0, s, h0⟩, ⟨1, s + 2*L/3, h1⟩, ⟨2, s + 4*L/3, h2⟩]
        (((ENTupletSubs.init s (s + 2*L) ⟨4, 4⟩).get_possible_subdivisions 3).getD 0 ⟨[], []⟩) ≤
        subdiv_distance [⟨0, s, h0⟩, ⟨1, s + 2*L/3, h1⟩, ⟨2, s + 4*L/3, h2⟩]
        (((ENTupletSubs.init s (s + 2*L) ⟨4, 4⟩).get_possible_subdivisions 3).getD j ⟨[], []⟩) := by
      intro j hj
      have hj1 : j < 1 := by
        simpa [ENTupletSubs.get_possible_subdivisions] using hj
      interval_cases j
      · rw [hk0]
    rw [get_closest_match_eq _ _ 0 h0lt h0first h0le, hk0, hT0]
    simp [ENTupletSubs.three_triplets]
  -- the three Subdivisions.match results
  have hfm : ENSubs.match s (s + L) ⟨4, 4⟩ [⟨0, s, h0⟩, ⟨1, s + 2*L/3, h1⟩] =
      .ok ⟨L/12, [Duration.dotted_sixteenth_note, Duration.thirty_second_note], [h0, h1]⟩ := by
    have hstep : ENSubs.match s (s + L) ⟨4, 4⟩ [⟨0, s, h0⟩, ⟨1, s + 2*L/3, h1⟩] =
        .ok (get_closest_match [⟨0, s, h0⟩, ⟨1, s + 2*L/3, h1⟩]
          ((ENSubs.init s (s + L) ⟨4, 4⟩).get_possible_subdivisions 2)) := rfl
    rw [hstep, hm1]
  have hsm : ENSubs.match (s + L) (s + 2*L) ⟨4, 4⟩ [⟨2, s + 4*L/3, h2⟩] =
      .ok ⟨L/12, [Duration.dotted_sixteenth_note], [h2]⟩ := by
    have hstep : ENSubs.match (s + L) (s + 2*L) ⟨4, 4⟩ [⟨2, s + 4*L/3, h2⟩] =
        .ok (get_closest_match [⟨2, s + 4*L/3, h2⟩]
          ((ENSubs.init (s + L) (s + 2*L) ⟨4, 4⟩).get_possible_subdivisions 1)) := rfl
    rw [hstep, hm2]
  have htm : ENTupletSubs.match s (s + 2*L) ⟨4, 4⟩
      [⟨0, s, h0⟩, ⟨1, s + 2*L/3, h1⟩, ⟨2, s + 4*L/3, h2⟩] =
      some ⟨0, [Duration.eighth_note_triplet, Duration.eighth_note_triplet,
        Duration.eighth_note_triplet], [h0, h1, h2]⟩ := by
    have hstep : ENTupletSubs.match s (s + 2*L) ⟨4, 4⟩
        [⟨0, s, h0⟩, ⟨1, s + 2*L/3, h1⟩, ⟨2, s + 4*L/3, h2⟩] =
        some (get_closest_match [⟨0, s, h0⟩, ⟨1, s + 2*L/3, h1⟩, ⟨2, s + 4*L/3, h2⟩]
          ((ENTupletSubs.init s (s + 2*L) ⟨4, 4⟩).get_possible_subdivisions 3)) := rfl
    rw [hstep, hmT]
  -- assembly
  refine ⟨⟨L/12, [Duration.dotted_sixteenth_note, Duration.thirty_second_note], [h0, h1]⟩,
    ⟨L/12, [Duration.dotted_sixteenth_note], [h2]⟩, ?_, ?_, ?_, ?_, ?_, ?_⟩
  · rw [hfirst]
    exact hfm
  · rw [hsecond]
    exact hsm
  · rw [hfirst, hsecond]
    simp only [List.cons_append, List.nil_append]
    exact htm
  · simp only [Match.add]
    ring
  · simp only [Match.add]
    linarith only [hL]
  · have hmin : minMatch
        (Match.add ⟨L/12, [Duration.dotted_sixteenth_note, Duration.thirty_second_note], [h0, h1]⟩
          ⟨L/12, [Duration.dotted_sixteenth_note], [h2]⟩)
        ⟨0, [Duration.eighth_note_triplet, Duration.eighth_note_triplet,
          Duration.eighth_note_triplet], [h0, h1, h2]⟩ =
        ⟨0, [Duration.eighth_note_triplet, Duration.eighth_note_triplet,
          Duration.eighth_note_triplet], [h0, h1, h2]⟩ := by
      simp only [minMatch, Match.add]
      rw [if_pos]
      linarith only [hL]
    simp only [matchStride, hfirst, hsecond, hfm, hsm, List.cons_append,
      List.nil_append, htm]
    rw [hmin]

/-- Witness for C5 at the concrete span from 0 to 2 seconds (eighth note of
1 s) with onsets at 0, 2/3 and 4/3 seconds. -/
theorem c5_triplet_chosen_over_straight_witness :
    (0 : ℚ) < 1 ∧
    ∃ fm sm : Match,
      ENSubs.match 0 (0 + 1) ⟨4, 4⟩
        (get_notes_within_tolerance
          [⟨0, 0, Hit.hits ["KD"]⟩, ⟨1, 0 + 2*1/3, Hit.hits ["SD"]⟩,
           ⟨2, 0 + 4*1/3, Hit.hits ["HH"]⟩] 0 (0 + 1) 0) = .ok fm ∧
      ENSubs.match (0 + 1) (0 + 2*1) ⟨4, 4⟩
        (get_notes_within_tolerance
          [⟨0, 0, Hit.hits ["KD"]⟩, ⟨1, 0 + 2*1/3, Hit.hits ["SD"]⟩,
           ⟨2, 0 + 4*1/3, Hit.hits ["HH"]⟩] (0 + 1) (0 + 2*1) 0) = .ok sm ∧
      ENTupletSubs.match 0 (0 + 2*1) ⟨4, 4⟩
        (get_notes_within_tolerance
          [⟨0, 0, Hit.hits ["KD"]⟩, ⟨1, 0 + 2*1/3, Hit.hits ["SD"]⟩,
           ⟨2, 0 + 4*1/3, Hit.hits ["HH"]⟩] 0 (0 + 1) 0 ++
         get_notes_within_tolerance
          [⟨0, 0, Hit.hits ["KD"]⟩, ⟨1, 0 + 2*1/3, Hit.hits ["SD"]⟩,
           ⟨2, 0 + 4*1/3, Hit.hits ["HH"]⟩] (0 + 1) (0 + 2*1) 0) =
        some ⟨0, [Duration.eighth_note_triplet, Duration.eighth_note_triplet,
          Duration.eighth_note_triplet],
          [Hit.hits ["KD"], Hit.hits ["SD"], Hit.hits ["HH"]]⟩ ∧
      (fm.add sm).distance = 1/6 ∧
      (0 : ℚ) < (fm.add sm).distance ∧
      matchStride [⟨0, 0, Hit.hits ["KD"]⟩, ⟨1, 0 + 2*1/3, Hit.hits ["SD"]⟩,
          ⟨2, 0 + 4*1/3, Hit.hits ["HH"]⟩] ⟨4, 4⟩ 0 0 (0 + 1) (0 + 2*1) =
        .ok ⟨0, [Duration.eighth_note_triplet, Duration.eighth_note_triplet,
          Duration.eighth_note_triplet],
          [Hit.hits ["KD"], Hit.hits ["SD"], Hit.hits ["HH"]]⟩ :=
  ⟨by norm_num,
   c5_triplet_chosen_over_straight 0 1 (by norm_num)
     (Hit.hits ["KD"]) (Hit.hits ["SD"]) (Hit.hits ["HH"])⟩

end Porcaro
